import Mathlib

/-!
Verification of the websocket broadcast hub in `websocket-server/server.py`.

The development shallowly embeds the server's pure logic:
* a JSON value model (`Json`/`JArr`/`JObj`, mutually inductive so that all
  functions are structurally recursive and kernel-evaluable),
* `json.dumps(…, ensure_ascii=False)` (`dumpJson`, with the default
  `", "`/`": "` separators and the standard-library escape table),
* the CPython `json` decoder (`parseVal`, faithful to `json/scanner.py` and
  `json/decoder.py`: `raw_decode` prefix semantics with no leading-whitespace
  skip, the `(-?(0|[1-9]\d*))(\.\d+)?([eE][-+]?\d+)?` number regex,
  `NaN`/`Infinity`/`-Infinity` constants, strict rejection of raw control
  characters in strings, `\uXXXX` escapes with surrogate-pair joining, and
  `dict(pairs)` key de-duplication; the one deliberate simplification is that
  `\uXXXX` requires four hex digits, where CPython's `int(esc, 16)` would also
  tolerate exotic forms such as embedded signs),
* `sanitize_response`, `query_ollama_payload`, `send_broadcast`, the
  websocket text-frame loop, `ollama_handler` and the heartbeat tick.

Effects are made explicit: the HTTP call to the generation service is an
input (`none` = transport failure/timeout, `some (status, body)` = a reply),
timestamps are parameters, a connection is a record of its observable state
(`closed`, and whether `send_str` would raise), and a Python-level unhandled
exception is `Except.error ()`.
-/

set_option maxHeartbeats 1600000

deriving instance DecidableEq for Except

namespace WsHub

/-! ### Characters and Python string helpers -/

/-- `{` (kept out of literals for tooling reasons). -/
def lbrace : Char := Char.ofNat 123

/-- `}`. -/
def rbrace : Char := Char.ofNat 125

/-- A backtick. -/
def btick : Char := Char.ofNat 96

/-- The markdown fence marker: three backticks. -/
def fenceTicks : List Char := [btick, btick, btick]

/-- JSON whitespace, as in `json.decoder`'s `_ws`: space, tab, newline, return. -/
def jsonWs (c : Char) : Bool := c = ' ' || c = '\t' || c = '\n' || c = '\r'

/-- Drop leading JSON whitespace (the decoder's `_w(s, idx).end()`). -/
def skipWs : List Char → List Char
  | c :: cs => if jsonWs c then skipWs cs else c :: cs
  | [] => []

/-- Python `str.isspace` characters (the set `str.strip()` removes). -/
def pyStrWs (c : Char) : Bool :=
  (9 ≤ c.toNat && c.toNat ≤ 13) || (28 ≤ c.toNat && c.toNat ≤ 32) ||
  c.toNat = 133 || c.toNat = 160 || c.toNat = 5760 ||
  (8192 ≤ c.toNat && c.toNat ≤ 8202) || c.toNat = 8232 || c.toNat = 8233 ||
  c.toNat = 8239 || c.toNat = 8287 || c.toNat = 12288

/-- Python `str.strip()` on a character list. -/
def pyStrip (cs : List Char) : List Char :=
  ((cs.dropWhile pyStrWs).reverse.dropWhile pyStrWs).reverse

/-- Python `str.strip()`. -/
def pyStripStr (s : String) : String := String.mk (pyStrip s.data)

/-- Python `str.startswith` on character lists. -/
def startsWithL : List Char → List Char → Bool
  | [], _ => true
  | _ :: _, [] => false
  | p :: ps, c :: cs => p = c && startsWithL ps cs

/-- Python `str.endswith` on character lists. -/
def endsWithL (pat cs : List Char) : Bool := startsWithL pat.reverse cs.reverse

/-- Remove a literal head, or fail (the decoder's `startswith` dispatch). -/
def stripLit : List Char → List Char → Option (List Char)
  | [], cs => some cs
  | _ :: _, [] => none
  | p :: ps, c :: cs => if p = c then stripLit ps cs else none

/-- Whether the text contains a newline (`'\n' in cleaned`). -/
def containsNl (cs : List Char) : Bool := cs.any (fun c => c = '\n')

/-- Everything after the first newline (`cleaned.split('\n', 1)[1]`). -/
def afterFirstNl : List Char → List Char
  | [] => []
  | c :: r => if c = '\n' then r else afterFirstNl r

/-- Whether a three-backtick run occurs anywhere in the text. -/
def containsTicks : List Char → Bool
  | [] => false
  | c :: r => startsWithL fenceTicks (c :: r) || containsTicks r

/-- The text before the last three-backtick run (`cleaned.rsplit('```', 1)[0]`);
the whole text when no run occurs, matching Python `rsplit`. -/
def beforeLastTicks : List Char → List Char
  | [] => []
  | c :: r =>
    if startsWithL fenceTicks (c :: r) && !containsTicks r then []
    else c :: beforeLastTicks r

/-! ### The JSON value model

Numbers keep their matched source text (`Json.num "10"`), exactly what the
decoder's number branch captures and what `dumps` prints back; no floating
point is involved. -/

mutual
inductive Json where
  | null : Json
  | bool (b : Bool) : Json
  | num (s : String) : Json
  | str (s : String) : Json
  | arr (xs : JArr) : Json
  | obj (fs : JObj) : Json
deriving DecidableEq
inductive JArr where
  | nil : JArr
  | cons (hd : Json) (tl : JArr) : JArr
deriving DecidableEq
inductive JObj where
  | nil : JObj
  | cons (k : String) (v : Json) (tl : JObj) : JObj
deriving DecidableEq
end

/-- Python `dict.get`: the first binding of a key. -/
def JObj.get? : JObj → String → Option Json
  | JObj.nil, _ => none
  | JObj.cons k v tl, key => if k = key then some v else JObj.get? tl key

/-- Python `d[key] = val`: overwrite in place if present, else append. -/
def JObj.set : JObj → String → Json → JObj
  | JObj.nil, key, val => JObj.cons key val JObj.nil
  | JObj.cons k v tl, key, val =>
    if k = key then JObj.cons k val tl else JObj.cons k v (JObj.set tl key val)

/-- Concatenation of field lists. -/
def JObj.append : JObj → JObj → JObj
  | JObj.nil, o => o
  | JObj.cons k v tl, o => JObj.cons k v (JObj.append tl o)

/-- Membership of a key (`key in d`). -/
def JObj.hasKey (o : JObj) (key : String) : Bool := (o.get? key).isSome

/-- The keys, in order. -/
def JObj.keys : JObj → List String
  | JObj.nil => []
  | JObj.cons k _ tl => k :: JObj.keys tl

/-- `dict(pairs)`: insert each pair in turn (later duplicates overwrite in place). -/
def JObj.insertAll : JObj → JObj → JObj
  | acc, JObj.nil => acc
  | acc, JObj.cons k v tl => JObj.insertAll (JObj.set acc k v) tl

/-- `dict(pairs)` from a parsed member list. -/
def pyDict (pairs : JObj) : JObj := JObj.insertAll JObj.nil pairs

/-- `''.join(output)`: `none` models the `TypeError` on a non-string element. -/
def JArr.joinStrs : JArr → Option String
  | JArr.nil => some ""
  | JArr.cons (Json.str s) tl => (JArr.joinStrs tl).map (fun r => s ++ r)
  | JArr.cons _ _ => none

/-- Whether a JSON number literal is truthy in Python (nonzero as a float;
`NaN` and the infinities are truthy, and exponent digits never make `0e5`
nonzero). -/
def pyNumTruthy (s : String) : Bool :=
  let mant := s.data.takeWhile (fun c => !(c = 'e' || c = 'E'))
  mant.any (fun c => c = 'N' || c = 'I') || mant.any (fun c => c.isDigit && c ≠ '0')

/-- Python truthiness of a decoded JSON value. -/
def pyTruthy : Json → Bool
  | Json.null => false
  | Json.bool b => b
  | Json.num s => pyNumTruthy s
  | Json.str s => !s.data.isEmpty
  | Json.arr JArr.nil => false
  | Json.arr (JArr.cons _ _) => true
  | Json.obj JObj.nil => false
  | Json.obj (JObj.cons _ _ _) => true

/-! ### `json.dumps(…, ensure_ascii=False)` -/

/-- A lowercase hex digit, as `'\u%04x'` prints. -/
def hexDig (n : Nat) : Char :=
  if n < 10 then Char.ofNat (48 + n) else Char.ofNat (87 + n)

/-- The encoder's `ESCAPE_DCT`: backslash, quote, the five shortcuts, and
`\u00XX` for the remaining control characters; all else passes through
(`ensure_ascii=False`). -/
def escChar (c : Char) : List Char :=
  if c = '"' then ['\\', '"']
  else if c = '\\' then ['\\', '\\']
  else if c = Char.ofNat 8 then ['\\', 'b']
  else if c = '\t' then ['\\', 't']
  else if c = '\n' then ['\\', 'n']
  else if c = Char.ofNat 12 then ['\\', 'f']
  else if c = '\r' then ['\\', 'r']
  else if c.toNat < 32 then
    ['\\', 'u', '0', '0', hexDig (c.toNat / 16), hexDig (c.toNat % 16)]
  else [c]

/-- Escape a string body. -/
def escapeStr : List Char → List Char
  | [] => []
  | c :: r => escChar c ++ escapeStr r

mutual
/-- `json.dumps` of a value, as characters (default separators `", "`, `": "`). -/
def dumpJson : Json → List Char
  | Json.null => ['n', 'u', 'l', 'l']
  | Json.bool true => ['t', 'r', 'u', 'e']
  | Json.bool false => ['f', 'a', 'l', 's', 'e']
  | Json.num s => s.data
  | Json.str s => '"' :: escapeStr s.data ++ ['"']
  | Json.arr a => '[' :: dumpArr a ++ [']']
  | Json.obj o => lbrace :: dumpObj o ++ [rbrace]
/-- Array items joined by `", "`. -/
def dumpArr : JArr → List Char
  | JArr.nil => []
  | JArr.cons h JArr.nil => dumpJson h
  | JArr.cons h (JArr.cons h2 tl) =>
    dumpJson h ++ ',' :: ' ' :: dumpArr (JArr.cons h2 tl)
/-- Object members `"key": value` joined by `", "`. -/
def dumpObj : JObj → List Char
  | JObj.nil => []
  | JObj.cons k v JObj.nil => '"' :: escapeStr k.data ++ '"' :: ':' :: ' ' :: dumpJson v
  | JObj.cons k v (JObj.cons k2 v2 tl) =>
    '"' :: escapeStr k.data ++ '"' :: ':' :: ' ' :: dumpJson v ++
      ',' :: ' ' :: dumpObj (JObj.cons k2 v2 tl)
end

/-- `json.dumps(…, ensure_ascii=False)`. -/
def dumps (j : Json) : String := String.mk (dumpJson j)

/-! ### The CPython JSON decoder -/

/-- A hex digit's value (`int(…, 16)` on one character). -/
def hexVal (c : Char) : Option Nat :=
  if 48 ≤ c.toNat && c.toNat ≤ 57 then some (c.toNat - 48)
  else if 97 ≤ c.toNat && c.toNat ≤ 102 then some (c.toNat - 87)
  else if 65 ≤ c.toNat && c.toNat ≤ 70 then some (c.toNat - 55)
  else none

/-- The decoder's `BACKSLASH` table for single-character escapes. -/
def escDecode (e : Char) : Option Char :=
  if e = '"' then some '"'
  else if e = '\\' then some '\\'
  else if e = '/' then some '/'
  else if e = 'b' then some (Char.ofNat 8)
  else if e = 'f' then some (Char.ofNat 12)
  else if e = 'n' then some '\n'
  else if e = 'r' then some '\r'
  else if e = 't' then some '\t'
  else none

/-- `py_scanstring` after the opening quote, producing UTF-16-ish code units:
a `\uXXXX` escape contributes its raw unit (possibly a surrogate half), every
other consumed character its code point. Raw control characters are rejected
(`strict=True`), invalid escapes fail. -/
def scanStrU : List Char → Option (List Nat × List Char)
  | [] => none
  | '"' :: r => some ([], r)
  | '\\' :: 'u' :: h1 :: h2 :: h3 :: h4 :: r2 =>
    match hexVal h1, hexVal h2, hexVal h3, hexVal h4 with
    | some a, some b, some c, some d =>
      (scanStrU r2).map (fun pr => ((((a * 16 + b) * 16 + c) * 16 + d) :: pr.1, pr.2))
    | _, _, _, _ => none
  | '\\' :: e :: r2 =>
    match escDecode e with
    | some ch => (scanStrU r2).map (fun pr => (ch.toNat :: pr.1, pr.2))
    | none => none
  | '\\' :: [] => none
  | c :: r =>
    if c.toNat < 32 then none
    else (scanStrU r).map (fun pr => (c.toNat :: pr.1, pr.2))

/-- Join a high surrogate with an immediately following low surrogate, as the
decoder does for adjacent `\uXXXX` escapes. In this model for a source text of
Lean characters, a surrogate unit can only have come from an escape, so
adjacency of units coincides with CPython's adjacency of escapes. An unpaired
surrogate goes through `Char.ofNat` (CPython keeps the lone code unit, which
Lean's `Char` cannot carry). -/
def pairSurrogates : List Nat → List Char
  | [] => []
  | n :: m :: rest =>
    if (55296 ≤ n && n ≤ 56319) && (56320 ≤ m && m ≤ 57343) then
      Char.ofNat (65536 + (n - 55296) * 1024 + (m - 56320)) :: pairSurrogates rest
    else Char.ofNat n :: pairSurrogates (m :: rest)
  | [n] => [Char.ofNat n]

/-- `py_scanstring` after the opening quote: the string's characters and the
remainder past the closing quote. -/
def scanStr (cs : List Char) : Option (List Char × List Char) :=
  (scanStrU cs).map (fun pr => (pairSurrogates pr.1, pr.2))

/-- The integer part of the number regex: `0`, or a nonzero digit then a run. -/
def intPart : List Char → Option (List Char × List Char)
  | [] => none
  | c :: r =>
    if c = '0' then some (['0'], r)
    else if c.isDigit then
      some (c :: r.takeWhile Char.isDigit, r.dropWhile Char.isDigit)
    else none

/-- The optional fraction `(\.\d+)?`: consumed only when a digit follows the dot. -/
def fracPart (cs : List Char) : List Char × List Char :=
  match cs with
  | '.' :: c :: r =>
    if c.isDigit then ('.' :: c :: r.takeWhile Char.isDigit, r.dropWhile Char.isDigit)
    else ([], cs)
  | _ => ([], cs)

/-- The optional exponent `([eE][-+]?\d+)?`: consumed only when at least one
digit follows the marker (and optional sign). -/
def expPart (cs : List Char) : List Char × List Char :=
  match cs with
  | e :: rest =>
    if e = 'e' || e = 'E' then
      match rest with
      | s :: d :: r =>
        if s = '+' || s = '-' then
          if d.isDigit then
            (e :: s :: d :: r.takeWhile Char.isDigit, r.dropWhile Char.isDigit)
          else ([], cs)
        else if s.isDigit then
          (e :: s :: (d :: r).takeWhile Char.isDigit, (d :: r).dropWhile Char.isDigit)
        else ([], cs)
      | [d] => if d.isDigit then ([e, d], []) else ([], cs)
      | [] => ([], cs)
    else ([], cs)
  | [] => ([], cs)

/-- The optional leading minus sign (`-?`). -/
def scanSign (cs : List Char) : List Char × List Char :=
  match cs with
  | '-' :: r => (['-'], r)
  | _ => ([], cs)

/-- The scanner's `NUMBER_RE` match at the current position: the matched
characters and the remainder. -/
def scanNumber (cs : List Char) : Option (List Char × List Char) :=
  match intPart (scanSign cs).2 with
  | none => none
  | some (ip, rest1) =>
    let fr := fracPart rest1
    let ex := expPart fr.2
    some ((scanSign cs).1 ++ ip ++ fr.1 ++ ex.1, ex.2)

mutual
/-- `_scan_once`: one JSON value at the current position, no whitespace skip.
Dispatch order follows `json/scanner.py`: string, object, array, `null`,
`true`, `false`, number, `NaN`, `Infinity`, `-Infinity`. Fuel only bounds
nesting; `rawDecode` supplies more than any input can use. -/
def parseVal : Nat → List Char → Option (Json × List Char)
  | 0, _ => none
  | Nat.succ f, cs =>
    match cs with
    | [] => none
    | '"' :: r => (scanStr r).map (fun pr => (Json.str (String.mk pr.1), pr.2))
    | c :: r =>
      if c = lbrace then
        match skipWs r with
        | [] => none
        | c2 :: r2 =>
          if c2 = rbrace then some (Json.obj JObj.nil, r2)
          else
            match parseMembers f (c2 :: r2) with
            | some (pairs, rest) => some (Json.obj (pyDict pairs), rest)
            | none => none
      else if c = '[' then
        match skipWs r with
        | [] => none
        | c2 :: r2 =>
          if c2 = ']' then some (Json.arr JArr.nil, r2)
          else
            match parseElems f (c2 :: r2) with
            | some (elems, rest) => some (Json.arr elems, rest)
            | none => none
      else
        match stripLit ['n', 'u', 'l', 'l'] cs with
        | some r2 => some (Json.null, r2)
        | none =>
          match stripLit ['t', 'r', 'u', 'e'] cs with
          | some r2 => some (Json.bool true, r2)
          | none =>
            match stripLit ['f', 'a', 'l', 's', 'e'] cs with
            | some r2 => some (Json.bool false, r2)
            | none =>
              match scanNumber cs with
              | some (numCs, r2) => some (Json.num (String.mk numCs), r2)
              | none =>
                match stripLit ['N', 'a', 'N'] cs with
                | some r2 => some (Json.num "NaN", r2)
                | none =>
                  match stripLit ['I', 'n', 'f', 'i', 'n', 'i', 't', 'y'] cs with
                  | some r2 => some (Json.num "Infinity", r2)
                  | none =>
                    match stripLit ('-' :: ['I', 'n', 'f', 'i', 'n', 'i', 't', 'y']) cs with
                    | some r2 => some (Json.num "-Infinity", r2)
                    | none => none
/-- `JSONObject`'s member loop, entered at a key's opening quote. -/
def parseMembers : Nat → List Char → Option (JObj × List Char)
  | 0, _ => none
  | Nat.succ f, cs =>
    match cs with
    | '"' :: r =>
      match scanStr r with
      | none => none
      | some (keyCs, r1) =>
        match skipWs r1 with
        | ':' :: r2 =>
          match parseVal f (skipWs r2) with
          | none => none
          | some (v, r3) =>
            match skipWs r3 with
            | [] => none
            | c4 :: r4 =>
              if c4 = rbrace then some (JObj.cons (String.mk keyCs) v JObj.nil, r4)
              else if c4 = ',' then
                match parseMembers f (skipWs r4) with
                | some (tl, r5) => some (JObj.cons (String.mk keyCs) v tl, r5)
                | none => none
              else none
        | _ => none
    | _ => none
/-- `JSONArray`'s element loop, entered at the first element. -/
def parseElems : Nat → List Char → Option (JArr × List Char)
  | 0, _ => none
  | Nat.succ f, cs =>
    match parseVal f cs with
    | none => none
    | some (v, r) =>
      match skipWs r with
      | [] => none
      | c2 :: r2 =>
        if c2 = ']' then some (JArr.cons v JArr.nil, r2)
        else if c2 = ',' then
          match parseElems f (skipWs r2) with
          | some (tl, r3) => some (JArr.cons v tl, r3)
          | none => none
        else none
end

/-- `JSONDecoder().raw_decode(s)`: the first value starting at index 0 (no
leading-whitespace skip), with the unconsumed remainder. -/
def rawDecode (s : String) : Option (Json × List Char) :=
  parseVal (s.data.length + 1) s.data

/-- Lines 86–92 of `server.py`: `decoded, _ = decoder.raw_decode(text)`,
`None` on `JSONDecodeError`. -/
def decode_step (text : String) : Option Json :=
  match rawDecode text with
  | some (v, _) => some v
  | none => none

/-- `json.loads`: skip leading whitespace, decode one value, and require only
whitespace to remain. -/
def json_loads (s : String) : Option Json :=
  let cs := skipWs s.data
  match parseVal (cs.length + 1) cs with
  | some (v, rest) => if skipWs rest = [] then some v else none
  | none => none

/-! ### `sanitize_response` (lines 71–77) -/

/-- `sanitize_response` on characters: strip, drop a leading fence marker
line, drop a trailing fence marker, re-strip. -/
def sanitize_core (raw : List Char) : List Char :=
  let cleaned := pyStrip raw
  let cleaned :=
    if startsWithL fenceTicks cleaned then
      if containsNl cleaned then afterFirstNl cleaned else []
    else cleaned
  let cleaned := if endsWithL fenceTicks cleaned then beforeLastTicks cleaned else cleaned
  pyStrip cleaned

/-- `sanitize_response`. -/
def sanitize_response (raw : String) : String := String.mk (sanitize_core raw.data)

/-! ### `query_ollama_payload` (lines 36–92)

The HTTP exchange is an input: `none` models a raised/timed-out request (the
`except` branch), `some (status, result)` a reply whose JSON body is `result`
(an object, per the generation service's contract). `Except.error ()` is an
unhandled Python exception (`''.join` over non-strings). -/

/-- The `output`-field candidate: a list is joined (`TypeError` on non-string
elements), a string is used directly, other types contribute nothing. -/
def outputCandidates (result : JObj) : Except Unit (List String) :=
  match result.get? "output" with
  | none => Except.ok []
  | some (Json.arr xs) =>
    match xs.joinStrs with
    | some s => Except.ok [s]
    | none => Except.error ()
  | some (Json.str s) => Except.ok [s]
  | some _ => Except.ok []

/-- A candidate from a field that must hold a string (`response`, `content`). -/
def strCandidate (result : JObj) (key : String) : List String :=
  match result.get? key with
  | some (Json.str s) => [s]
  | _ => []

/-- `next((t for t in text_candidates if t and t.strip()), '')`. -/
def firstNonBlank : List String → String
  | [] => ""
  | t :: rest =>
    if !t.data.isEmpty && !(pyStrip t.data).isEmpty then t else firstNonBlank rest

/-- The translator: `query_ollama_payload`, from the HTTP outcome to the value
the coroutine returns (`Except.ok` = a Python return, `.error` = an unhandled
exception). All failure paths return `none`. -/
def query_ollama_payload (http : Option (Nat × JObj)) : Except Unit (Option Json) :=
  match http with
  | none => Except.ok none
  | some (status, result) =>
    if status ≠ 200 then Except.ok none
    else
      match outputCandidates result with
      | Except.error _ => Except.error ()
      | Except.ok oc =>
        let cands := oc ++ strCandidate result "response" ++ strCandidate result "content"
        if cands.isEmpty then Except.ok none
        else
          let text := firstNonBlank cands
          let text1 := sanitize_response text
          if text1.data.isEmpty then Except.ok none
          else
            let text2 := sanitize_response text1
            if text2.data.isEmpty then Except.ok none
            else Except.ok (decode_step text2)

/-! ### `send_broadcast` (lines 94–106) -/

/-- One registered connection: its identity and the two observable transport
conditions the loop reacts to (`ws.closed`, and whether `send_str` raises). -/
structure Conn where
  id : Nat
  closed : Bool
  sendFails : Bool
deriving DecidableEq

/-- What a broadcast leaves behind: the surviving registry (the snapshot minus
evictions) and each delivery `(connection id, wire text)` in iteration order. -/
structure BroadcastResult where
  registry : List Conn
  sent : List (Nat × String)
deriving DecidableEq

/-- `{**payload, 'selfEcho': True}`: a fresh dict, the original untouched. -/
def selfEchoVariant (payload : JObj) : JObj := payload.set "selfEcho" (Json.bool true)

/-- `send_broadcast(payload, origin)` over a snapshot of the registry: a closed
connection is evicted and skipped; the originator gets the `selfEcho` variant's
serialization, everyone else the unmodified serialization; a raising `send_str`
evicts that connection only. -/
def send_broadcast (payload : JObj) (origin : Option Nat) : List Conn → BroadcastResult
  | [] => { registry := [], sent := [] }
  | c :: rest =>
    let r := send_broadcast payload origin rest
    if c.closed then r
    else if c.sendFails then r
    else
      let msg :=
        if origin = some c.id then dumps (Json.obj (selfEchoVariant payload))
        else dumps (Json.obj payload)
      { registry := c :: r.registry, sent := (c.id, msg) :: r.sent }

/-! ### The websocket text-frame loop (lines 122–141) -/

/-- The `error` Envelope sent privately on a decode failure. -/
def errorEnvelope (raw : String) : JObj :=
  JObj.cons "type" (Json.str "error")
    (JObj.cons "message" (Json.str "JSONではありません")
      (JObj.cons "raw" (Json.str raw) JObj.nil))

/-- The `broadcast` Envelope wrapping a decoded client message. -/
def clientEnvelope (ts : String) (body : Json) : JObj :=
  JObj.cons "type" (Json.str "broadcast")
    (JObj.cons "origin" (Json.str "client")
      (JObj.cons "timestamp" (Json.str ts)
        (JObj.cons "body" body JObj.nil)))

/-- One observable action of the frame loop: a private `send_str` back to the
sender, or a `send_broadcast` call (`originIsSelf`: this socket was passed as
`origin`). -/
inductive WsEvent where
  | toSender (msg : String) : WsEvent
  | broadcastEv (payload : JObj) (originIsSelf : Bool) : WsEvent
deriving DecidableEq

/-- The `async for` loop over text frames: each frame is trimmed and JSON
decoded; failure sends the private error Envelope and `continue`s, success
broadcasts the wrapped body with this connection as originator. `ts k` is the
timestamp current when frame `k` is handled. -/
def handle_frames (ts : Nat → String) : Nat → List String → List WsEvent
  | _, [] => []
  | k, frame :: rest =>
    let payload := pyStripStr frame
    match json_loads payload with
    | none =>
      WsEvent.toSender (dumps (Json.obj (errorEnvelope payload))) ::
        handle_frames ts (k + 1) rest
    | some data =>
      WsEvent.broadcastEv (clientEnvelope (ts k) data) true ::
        handle_frames ts (k + 1) rest

/-! ### `ollama_handler` (lines 155–177) -/

/-- `{"error": "command is required"}`. -/
def requiredError : JObj := JObj.cons "error" (Json.str "command is required") JObj.nil

/-- `{"error": "failed to generate payload"}`. -/
def generateError : JObj :=
  JObj.cons "error" (Json.str "failed to generate payload") JObj.nil

/-- `{"status": "ok", "payload": …}`. -/
def okBody (payload : Json) : JObj :=
  JObj.cons "status" (Json.str "ok") (JObj.cons "payload" payload JObj.nil)

/-- The system-originated `broadcast` Envelope with `origin: "ollama"`. -/
def ollamaEnvelope (ts : String) (body : Json) : JObj :=
  JObj.cons "type" (Json.str "broadcast")
    (JObj.cons "origin" (Json.str "ollama")
      (JObj.cons "timestamp" (Json.str ts)
        (JObj.cons "body" body JObj.nil)))

/-- `(data.get('command') or data.get('prompt') or '').strip()`, on the parsed
request body (`none`: `request.json()` raised, so `data = {}`). `Except.error`
is the uncaught `AttributeError`: `.get` on a non-dict body, or `.strip()` on
a truthy non-string value. -/
def extract_command (reqBody : Option Json) : Except Unit String :=
  match reqBody.getD (Json.obj JObj.nil) with
  | Json.obj data =>
    let c := (data.get? "command").getD Json.null
    let sel :=
      if pyTruthy c then c
      else
        let p := (data.get? "prompt").getD Json.null
        if pyTruthy p then p else Json.str ""
    match sel with
    | Json.str s => Except.ok (pyStripStr s)
    | _ => Except.error ()
  | _ => Except.error ()

/-- The handler's observable outcome: HTTP status and JSON body, whether the
generation service was invoked, and the broadcast performed (envelope and
originator argument), if any. -/
structure HandlerOutcome where
  status : Nat
  body : JObj
  genCalled : Bool
  broadcast : Option (JObj × Option Nat)
deriving DecidableEq

/-- `ollama_handler`: validate the command, invoke the translator, and on
success broadcast the `ollama` Envelope with no originator and acknowledge.
`ts` is the timestamp taken at the broadcast. -/
def ollama_handler (reqBody : Option Json) (http : Option (Nat × JObj)) (ts : String) :
    Except Unit HandlerOutcome :=
  match extract_command reqBody with
  | Except.error _ => Except.error ()
  | Except.ok command =>
    if command = "" then
      Except.ok { status := 400, body := requiredError, genCalled := false, broadcast := none }
    else
      match query_ollama_payload http with
      | Except.error _ => Except.error ()
      | Except.ok none =>
        Except.ok { status := 502, body := generateError, genCalled := true, broadcast := none }
      | Except.ok (some payload) =>
        Except.ok { status := 200, body := okBody payload, genCalled := true,
                    broadcast := some (ollamaEnvelope ts payload, none) }

/-! ### The heartbeat tick (lines 179–188) -/

/-- `{"type": "heartbeat", "timestamp": …}`. -/
def heartbeatEnvelope (ts : String) : JObj :=
  JObj.cons "type" (Json.str "heartbeat") (JObj.cons "timestamp" (Json.str ts) JObj.nil)

/-- One iteration of `periodic_server_time` after the sleep: with an empty
registry the cycle is skipped (no Envelope is built), otherwise the heartbeat
Envelope with the tick's timestamp is broadcast with no originator. -/
def periodic_tick (connected : List Conn) (ts : String) : Option (JObj × Option Nat) :=
  if connected.isEmpty then none else some (heartbeatEnvelope ts, none)

end WsHub

namespace WsHub

/-! ### Predicates used by the statements -/

/-- The broadcast loop's message for one connection: the `selfEcho` variant's
serialization for the originator, the plain serialization otherwise. -/
def deliveredMsg (payload : JObj) (origin : Option Nat) (c : Conn) : String :=
  if origin = some c.id then dumps (Json.obj (selfEchoVariant payload))
  else dumps (Json.obj payload)

/-- A trailing text that cannot extend a preceding number literal: empty, or
headed by something other than a digit, `.`, `e`, `E`. Every delimiter the
serializer emits after a value (`,`, `}`, `]`) qualifies. -/
def numStop : List Char → Bool
  | [] => true
  | c :: _ => !(c.isDigit || c = '.' || c = 'e' || c = 'E')

/-- Boundary condition for appending `t` after a serialized value: only a
top-level number constrains its trailing text. -/
def topBoundary : Json → List Char → Bool
  | Json.num _, t => numStop t
  | _, _ => true

/-- The tail is either empty or starts with a non-digit. -/
def headNotDigit : List Char → Bool
  | [] => true
  | c :: _ => !c.isDigit

/-- The shapes the scanner's integer part can produce: `0`, or a nonzero digit
followed by a digit run. -/
def ipShape (ip : List Char) : Prop :=
  ip = ['0'] ∨ ∃ c ds, ip = c :: ds ∧ c.isDigit = true ∧ c ≠ '0' ∧ ∀ d ∈ ds, d.isDigit = true

/-- The shapes the fraction part can produce: nothing, or a dot followed by at
least one digit. -/
def fpShape (fp : List Char) : Prop :=
  fp = [] ∨ ∃ d ds, fp = '.' :: d :: ds ∧ d.isDigit = true ∧ ∀ x ∈ ds, x.isDigit = true

/-- The shapes the exponent part can produce: nothing, or a marker, an
optional sign, and at least one digit. -/
def epShape (ep : List Char) : Prop :=
  ep = [] ∨ ∃ e sg d ds, ep = e :: (sg ++ d :: ds) ∧ (e = 'e' ∨ e = 'E')
    ∧ (sg = [] ∨ sg = ['+'] ∨ sg = ['-']) ∧ d.isDigit = true ∧ ∀ x ∈ ds, x.isDigit = true

mutual
/-- A value the serializer round-trips: number texts are exactly full matches
of the scanner's regex, and object keys are duplicate-free at every level. -/
def wfJson : Json → Bool
  | Json.null => true
  | Json.bool _ => true
  | Json.num s => decide (scanNumber s.data = some (s.data, []))
  | Json.str _ => true
  | Json.arr a => wfArr a
  | Json.obj o => wfObj o && decide o.keys.Nodup
/-- All elements well-formed. -/
def wfArr : JArr → Bool
  | JArr.nil => true
  | JArr.cons h tl => wfJson h && wfArr tl
/-- All values well-formed. -/
def wfObj : JObj → Bool
  | JObj.nil => true
  | JObj.cons _ v tl => wfJson v && wfObj tl
end

mutual
/-- Fuel sufficient for `parseVal` on this value's serialization. -/
def jfuel : Json → Nat
  | Json.null => 1
  | Json.bool _ => 1
  | Json.num _ => 1
  | Json.str _ => 1
  | Json.arr a => 1 + afuel a
  | Json.obj o => 1 + ofuel o
/-- Fuel sufficient for `parseElems` on this element list's serialization. -/
def afuel : JArr → Nat
  | JArr.nil => 0
  | JArr.cons h tl => 1 + jfuel h + afuel tl
/-- Fuel sufficient for `parseMembers` on this member list's serialization. -/
def ofuel : JObj → Nat
  | JObj.nil => 0
  | JObj.cons _ v tl => 1 + jfuel v + ofuel tl
end

end WsHub
namespace WsHub

/-! ## Theorems -/

/-! ### The broadcast engine: C1, C2, C9 -/

/-- Full characterization of `send_broadcast`: the surviving registry is the
snapshot minus closed and failing connections, and exactly those survivors are
delivered to, in order, each with `deliveredMsg`. -/
theorem send_broadcast_spec (payload : JObj) (origin : Option Nat) (reg : List Conn) :
    (send_broadcast payload origin reg).registry
        = reg.filter (fun c => !c.closed && !c.sendFails)
    ∧ (send_broadcast payload origin reg).sent
        = (reg.filter (fun c => !c.closed && !c.sendFails)).map
            (fun c => (c.id, deliveredMsg payload origin c)) := by
  induction reg with
  | nil => exact ⟨rfl, rfl⟩
  | cons c rest ih =>
    obtain ⟨ih1, ih2⟩ := ih
    by_cases h1 : c.closed
    · simp [send_broadcast, h1, List.filter_cons, ih1, ih2]
    · by_cases h2 : c.sendFails
      · simp [send_broadcast, h1, h2, List.filter_cons, ih1, ih2]
      · simp [send_broadcast, h1, h2, List.filter_cons, ih1, ih2, deliveredMsg]

/-- Inserting an absent key appends it at the end, the other fields untouched. -/
theorem JObj.set_eq_append : ∀ (o : JObj) (key : String) (v : Json),
    o.hasKey key = false → o.set key v = o.append (JObj.cons key v JObj.nil)
  | JObj.nil, _, _, _ => rfl
  | JObj.cons k _ tl, key, v, h => by
    by_cases hk : k = key
    · simp [JObj.hasKey, JObj.get?, hk] at h
    · have htl : tl.hasKey key = false := by
        simpa [JObj.hasKey, JObj.get?, hk] using h
      simp [JObj.set, JObj.append, hk, JObj.set_eq_append tl key v htl]

/-- C1: broadcasting envelope `E` from originator `P` over a registry of open,
healthy connections delivers to the `N` others exactly the serialization of
`E` (no `selfEcho` field: the serialized object is `E` itself), delivers to
`P` the serialization of `E` with the single appended field
`selfEcho: true`, and leaves both the registry and `E` unmodified (the
non-originator copies serialize the original `payload`). -/
theorem C1_broadcast_selfEcho (payload : JObj) (p : Nat) (reg : List Conn)
    (hopen : ∀ c ∈ reg, c.closed = false ∧ c.sendFails = false)
    (hecho : payload.hasKey "selfEcho" = false) :
    (send_broadcast payload (some p) reg).registry = reg
    ∧ (send_broadcast payload (some p) reg).sent
        = reg.map (fun c => (c.id,
            if p = c.id then
              dumps (Json.obj (payload.append (JObj.cons "selfEcho" (Json.bool true) JObj.nil)))
            else dumps (Json.obj payload))) := by
  obtain ⟨h1, h2⟩ := send_broadcast_spec payload (some p) reg
  have hfilter : reg.filter (fun c => !c.closed && !c.sendFails) = reg := by
    apply List.filter_eq_self.mpr
    intro c hc
    obtain ⟨hc1, hc2⟩ := hopen c hc
    simp [hc1, hc2]
  refine ⟨by rw [h1, hfilter], ?_⟩
  rw [h2, hfilter]
  apply List.map_congr_left
  intro c _
  simp only [deliveredMsg, selfEchoVariant, JObj.set_eq_append payload _ _ hecho,
    Option.some.injEq]

/-- Witness for C1 at a three-connection registry with originator 2. -/
theorem C1_broadcast_selfEcho_witness :
    (send_broadcast (clientEnvelope "T" Json.null) (some 2)
        [⟨1, false, false⟩, ⟨2, false, false⟩, ⟨3, false, false⟩]).registry
      = [⟨1, false, false⟩, ⟨2, false, false⟩, ⟨3, false, false⟩]
    ∧ (send_broadcast (clientEnvelope "T" Json.null) (some 2)
        [⟨1, false, false⟩, ⟨2, false, false⟩, ⟨3, false, false⟩]).sent
      = ([⟨1, false, false⟩, ⟨2, false, false⟩, ⟨3, false, false⟩] : List Conn).map
          (fun c => (c.id,
            if 2 = c.id then
              dumps (Json.obj ((clientEnvelope "T" Json.null).append
                (JObj.cons "selfEcho" (Json.bool true) JObj.nil)))
            else dumps (Json.obj (clientEnvelope "T" Json.null)))) :=
  C1_broadcast_selfEcho (clientEnvelope "T" Json.null) 2 _ (by decide) (by decide)

/-- C2: over a registry with closed or failing members, a broadcast evicts
exactly the closed connections (skipped before any send) and the connections
whose send raises, and still delivers to every remaining open connection —
the delivery list is the full map over the survivors, so no failure aborts
the rest. -/
theorem C2_broadcast_isolation (payload : JObj) (origin : Option Nat) (reg : List Conn) :
    (send_broadcast payload origin reg).registry
        = reg.filter (fun c => !c.closed && !c.sendFails)
    ∧ (send_broadcast payload origin reg).sent
        = (reg.filter (fun c => !c.closed && !c.sendFails)).map
            (fun c => (c.id, deliveredMsg payload origin c)) :=
  send_broadcast_spec payload origin reg

/-- C9: at a heartbeat tick with an empty registry no envelope is constructed
and no broadcast is attempted; otherwise the heartbeat envelope carrying the
tick's timestamp is broadcast with no originator, so every recipient gets the
plain serialization — no copy carries a `selfEcho` marker (the envelope has no
such field and no connection is the originator). -/
theorem C9_heartbeat (connected : List Conn) (ts : String) :
    periodic_tick [] ts = none
    ∧ (heartbeatEnvelope ts).hasKey "selfEcho" = false
    ∧ (connected ≠ [] →
        periodic_tick connected ts = some (heartbeatEnvelope ts, none)
        ∧ (send_broadcast (heartbeatEnvelope ts) none connected).sent
            = (connected.filter (fun c => !c.closed && !c.sendFails)).map
                (fun c => (c.id, dumps (Json.obj (heartbeatEnvelope ts))))) := by
  refine ⟨rfl, by simp [heartbeatEnvelope, JObj.hasKey, JObj.get?], fun hne => ⟨?_, ?_⟩⟩
  · cases connected with
    | nil => exact absurd rfl hne
    | cons c rest => rfl
  · rw [(send_broadcast_spec (heartbeatEnvelope ts) none connected).2]
    apply List.map_congr_left
    intro c _
    simp [deliveredMsg]

/-- Witness for C9 at a one-connection registry. -/
theorem C9_heartbeat_witness :
    periodic_tick [] "T" = none
    ∧ (heartbeatEnvelope "T").hasKey "selfEcho" = false
    ∧ (periodic_tick [⟨1, false, false⟩] "T" = some (heartbeatEnvelope "T", none)
        ∧ (send_broadcast (heartbeatEnvelope "T") none [⟨1, false, false⟩]).sent
            = (([⟨1, false, false⟩] : List Conn).filter
                (fun c => !c.closed && !c.sendFails)).map
                (fun c => (c.id, dumps (Json.obj (heartbeatEnvelope "T"))))) :=
  ⟨(C9_heartbeat [] "T").1, (C9_heartbeat [] "T").2.1,
    (C9_heartbeat [⟨1, false, false⟩] "T").2.2 (by decide)⟩

/-! ### The command endpoint and the translator: C3, C4, C7, C10 -/

/-- C3: a command request whose extracted command (the `command` key, then the
`prompt` key, trimmed) is empty gets the 400-class response
`{"error": "command is required"}` with the generation service never invoked
(`genCalled = false`) and no broadcast; and a request on which the translator
fails gets the 502-class response `{"error": "failed to generate payload"}`
with no broadcast. -/
theorem C3_command_errors :
    (∀ (reqBody : Option Json) (http : Option (Nat × JObj)) (ts : String),
      extract_command reqBody = Except.ok "" →
      ollama_handler reqBody http ts =
        Except.ok { status := 400, body := requiredError, genCalled := false, broadcast := none })
    ∧ (∀ (reqBody : Option Json) (http : Option (Nat × JObj)) (ts : String) (c : String),
      extract_command reqBody = Except.ok c → c ≠ "" →
      query_ollama_payload http = Except.ok none →
      ollama_handler reqBody http ts =
        Except.ok { status := 502, body := generateError, genCalled := true,
                    broadcast := none }) := by
  constructor
  · intro reqBody http ts h
    simp [ollama_handler, h]
  · intro reqBody http ts c h hne hq
    simp [ollama_handler, h, hne, hq]

/-- Witness for C3: a whitespace-only `command` (400, untranslated), and a
nonempty command whose generation request fails (502). -/
theorem C3_command_errors_witness :
    ollama_handler (some (Json.obj (JObj.cons "command" (Json.str "  ") JObj.nil))) none "T"
      = Except.ok { status := 400, body := requiredError, genCalled := false, broadcast := none }
    ∧ ollama_handler (some (Json.obj (JObj.cons "command" (Json.str "x") JObj.nil))) none "T"
      = Except.ok { status := 502, body := generateError, genCalled := true, broadcast := none } :=
  ⟨C3_command_errors.1 _ none "T" (by decide),
   C3_command_errors.2 _ none "T" "x" (by decide) (by decide) (by decide)⟩

/-- C4: when the translator succeeds with payload `G` on a nonempty command,
the handler broadcasts the `broadcast`-type envelope
`{"type": "broadcast", "origin": "ollama", "timestamp": ts, "body": G}` with
no originator and answers `{"status": "ok", "payload": G}`; the envelope has
no `selfEcho` field and, with no originator, every open connection receives
the plain serialization (no copy carries a `selfEcho` marker). -/
theorem C4_command_success (reqBody : Option Json) (http : Option (Nat × JObj)) (ts : String)
    (c : String) (G : Json)
    (hc : extract_command reqBody = Except.ok c) (hne : c ≠ "")
    (hgen : query_ollama_payload http = Except.ok (some G)) :
    ollama_handler reqBody http ts =
      Except.ok { status := 200, body := okBody G, genCalled := true,
                  broadcast := some (ollamaEnvelope ts G, none) }
    ∧ (ollamaEnvelope ts G).hasKey "selfEcho" = false
    ∧ ∀ reg : List Conn, (send_broadcast (ollamaEnvelope ts G) none reg).sent
        = (reg.filter (fun cc => !cc.closed && !cc.sendFails)).map
            (fun cc => (cc.id, dumps (Json.obj (ollamaEnvelope ts G)))) := by
  refine ⟨by simp [ollama_handler, hc, hne, hgen], ?_, ?_⟩
  · simp [ollamaEnvelope, JObj.hasKey, JObj.get?]
  · intro reg
    rw [(send_broadcast_spec _ none reg).2]
    apply List.map_congr_left
    intro cc _
    simp [deliveredMsg]

/-- Witness for C4: the spec's scenario — command `open gripper`, generation
stub replying `{"response": "{\"j6\":100}"}` — yields the success body and the
`ollama` envelope with body `{"j6":100}`, delivered plain to a one-connection
registry. -/
theorem C4_command_success_witness :
    ollama_handler (some (Json.obj (JObj.cons "command" (Json.str "open gripper") JObj.nil)))
        (some (200, JObj.cons "response" (Json.str "\x7b\"j6\":100\x7d") JObj.nil)) "T" =
      Except.ok { status := 200,
                  body := okBody (Json.obj (JObj.cons "j6" (Json.num "100") JObj.nil)),
                  genCalled := true,
                  broadcast := some
                    (ollamaEnvelope "T" (Json.obj (JObj.cons "j6" (Json.num "100") JObj.nil)),
                      none) }
    ∧ (ollamaEnvelope "T" (Json.obj (JObj.cons "j6" (Json.num "100") JObj.nil))).hasKey
        "selfEcho" = false
    ∧ (send_broadcast
          (ollamaEnvelope "T" (Json.obj (JObj.cons "j6" (Json.num "100") JObj.nil))) none
          [⟨1, false, false⟩]).sent
        = (([⟨1, false, false⟩] : List Conn).filter
            (fun cc => !cc.closed && !cc.sendFails)).map
            (fun cc => (cc.id, dumps (Json.obj
              (ollamaEnvelope "T" (Json.obj (JObj.cons "j6" (Json.num "100") JObj.nil)))))) := by
  have h := C4_command_success
    (some (Json.obj (JObj.cons "command" (Json.str "open gripper") JObj.nil)))
    (some (200, JObj.cons "response" (Json.str "\x7b\"j6\":100\x7d") JObj.nil)) "T"
    "open gripper" (Json.obj (JObj.cons "j6" (Json.num "100") JObj.nil))
    (by decide) (by decide) (by decide)
  exact ⟨h.1, h.2.1, h.2.2 [⟨1, false, false⟩]⟩

/-- C7 counterexample: one representative input per failure kind — a transport
failure (`none`), an all-empty textual output (`{"output": ""}`), and a
malformed payload (`{"response": "not json"}`) — and the translator returns
one and the same value (`None`) for all three, so the failure kinds are not
pairwise distinguishable to the caller, contrary to the claim. -/
theorem C7_counterexample :
    query_ollama_payload none = Except.ok none
    ∧ query_ollama_payload (some (200, JObj.cons "output" (Json.str "") JObj.nil))
        = Except.ok none
    ∧ query_ollama_payload (some (200, JObj.cons "response" (Json.str "not json") JObj.nil))
        = Except.ok none
    ∧ query_ollama_payload none
        = query_ollama_payload (some (200, JObj.cons "output" (Json.str "") JObj.nil))
    ∧ query_ollama_payload (some (200, JObj.cons "output" (Json.str "") JObj.nil))
        = query_ollama_payload (some (200, JObj.cons "response" (Json.str "not json") JObj.nil)) :=
  ⟨by decide, by decide, by decide, by decide, by decide⟩

/-- C7 amended: the translator collapses every failure kind to the same
caller-visible value `None` — any non-200 reply, a transport failure, an
all-empty textual output, and a malformed payload all return it; only the log
stream differs between kinds. -/
theorem C7_failures_same_value :
    (∀ (status : Nat) (body : JObj), status ≠ 200 →
        query_ollama_payload (some (status, body)) = Except.ok none)
    ∧ query_ollama_payload none = Except.ok none
    ∧ query_ollama_payload (some (200, JObj.cons "output" (Json.str "") JObj.nil))
        = Except.ok none
    ∧ query_ollama_payload (some (200, JObj.cons "response" (Json.str "not json") JObj.nil))
        = Except.ok none := by
  refine ⟨?_, by decide, by decide, by decide⟩
  intro status body h
  simp [query_ollama_payload, h]

/-- Witness for the amended C7, at status 500. -/
theorem C7_failures_same_value_witness :
    query_ollama_payload (some (500, JObj.nil)) = Except.ok none :=
  C7_failures_same_value.1 500 JObj.nil (by decide)

/-- C10 counterexample: request bodies the claim covers — the valid JSON
non-object body `5`, and `{"command": true}` (a truthy non-string) — make the
handler terminate with an unhandled `AttributeError` (`Except.error ()`)
instead of returning one of the specified responses. -/
theorem C10_counterexample :
    ollama_handler (some (Json.num "5")) none "T" = Except.error ()
    ∧ ollama_handler (some (Json.obj (JObj.cons "command" (Json.bool true) JObj.nil))) none "T"
        = Except.error () :=
  ⟨by decide, by decide⟩

/-- C10 amended: whenever command extraction does not raise (the body is a
JSON object whose selected `command`/`prompt` value is a string or falsy, or
the body is unparsable and treated as `{}`) and the translator returns without
raising, the handler returns one of the three specified definitive
responses. -/
theorem C10_amended (reqBody : Option Json) (http : Option (Nat × JObj)) (ts : String)
    (c : String) (r : Option Json)
    (hc : extract_command reqBody = Except.ok c)
    (hq : query_ollama_payload http = Except.ok r) :
    ∃ out, ollama_handler reqBody http ts = Except.ok out
      ∧ (out = { status := 400, body := requiredError, genCalled := false, broadcast := none }
        ∨ out = { status := 502, body := generateError, genCalled := true, broadcast := none }
        ∨ ∃ G, r = some G
            ∧ out = { status := 200, body := okBody G, genCalled := true,
                      broadcast := some (ollamaEnvelope ts G, none) }) := by
  by_cases hempty : c = ""
  · exact ⟨_, by simp [ollama_handler, hc, hempty], Or.inl rfl⟩
  · cases r with
    | none => exact ⟨_, by simp [ollama_handler, hc, hempty, hq], Or.inr (Or.inl rfl)⟩
    | some G =>
      exact ⟨_, by simp [ollama_handler, hc, hempty, hq], Or.inr (Or.inr ⟨G, rfl, rfl⟩)⟩

/-- Witness for the amended C10: an unparsable body (treated as `{}`) with a
failing generation call still gets a definitive response. -/
theorem C10_amended_witness :
    ∃ out, ollama_handler none none "T" = Except.ok out
      ∧ (out = { status := 400, body := requiredError, genCalled := false, broadcast := none }
        ∨ out = { status := 502, body := generateError, genCalled := true, broadcast := none }
        ∨ ∃ G, (none : Option Json) = some G
            ∧ out = { status := 200, body := okBody G, genCalled := true,
                      broadcast := some (ollamaEnvelope "T" G, none) }) :=
  C10_amended none none "T" "" none (by decide) (by decide)

/-! ### The websocket frame loop: C8 -/

/-- C8: an inbound text frame that fails JSON decoding produces exactly one
action — a private reply to the sender carrying the `error` envelope whose
`raw` field is the trimmed frame text — no broadcast call is made for that
frame, and the loop goes on to process the remaining frames; the envelope's
`type` is `error` and its `raw` is the original trimmed text. -/
theorem C8_malformed_frame (ts : Nat → String) (k : Nat) (frame : String) (rest : List String)
    (hbad : json_loads (pyStripStr frame) = none) :
    handle_frames ts k (frame :: rest)
      = WsEvent.toSender (dumps (Json.obj (errorEnvelope (pyStripStr frame)))) ::
          handle_frames ts (k + 1) rest
    ∧ (errorEnvelope (pyStripStr frame)).get? "raw" = some (Json.str (pyStripStr frame))
    ∧ (errorEnvelope (pyStripStr frame)).get? "type" = some (Json.str "error") := by
  refine ⟨by simp [handle_frames, hbad], ?_, ?_⟩ <;> simp [errorEnvelope, JObj.get?]

/-- Witness for C8 at the frame `not json` (no further frames). -/
theorem C8_malformed_frame_witness :
    handle_frames (fun _ => "T") 0 ["not json"]
      = [WsEvent.toSender (dumps (Json.obj (errorEnvelope (pyStripStr "not json"))))]
    ∧ (errorEnvelope (pyStripStr "not json")).get? "raw"
        = some (Json.str (pyStripStr "not json"))
    ∧ (errorEnvelope (pyStripStr "not json")).get? "type" = some (Json.str "error") :=
  C8_malformed_frame (fun _ => "T") 0 "not json" [] (by decide)

/-! ### Sanitization: C5 -/

theorem startsWithL_self_append : ∀ (p x : List Char), startsWithL p (p ++ x) = true
  | [], _ => rfl
  | c :: ps, x => by simp [startsWithL, startsWithL_self_append ps x]

theorem endsWithL_append_self (p x : List Char) : endsWithL p (x ++ p) = true := by
  simp [endsWithL, List.reverse_append, startsWithL_self_append]

theorem dropWhile_eq_self_of_head (p : Char → Bool) :
    ∀ (cs : List Char), (∀ c, cs.head? = some c → p c = false) → cs.dropWhile p = cs
  | [], _ => rfl
  | c :: r, h => by simp [List.dropWhile_cons, h c rfl]

theorem pyStrip_eq_self (cs : List Char)
    (h1 : ∀ c, cs.head? = some c → pyStrWs c = false)
    (h2 : ∀ c, cs.reverse.head? = some c → pyStrWs c = false) :
    pyStrip cs = cs := by
  unfold pyStrip
  rw [dropWhile_eq_self_of_head _ cs h1, dropWhile_eq_self_of_head _ cs.reverse h2,
    List.reverse_reverse]

theorem pyStrip_append_ws (x : List Char) (w : Char) (hw : pyStrWs w = true) :
    pyStrip (x ++ [w]) = pyStrip x := by
  unfold pyStrip
  rw [List.dropWhile_append]
  by_cases hx : (x.dropWhile pyStrWs).isEmpty
  · have hx' : x.dropWhile pyStrWs = [] := by simpa using hx
    simp [hx', List.dropWhile_cons, hw]
  · simp [hx, List.reverse_append, List.dropWhile_cons, hw]

theorem pyStrip_cons_ws (w : Char) (hw : pyStrWs w = true) (x : List Char) :
    pyStrip (w :: x) = pyStrip x := by
  unfold pyStrip
  rw [List.dropWhile_cons]
  simp [hw]

theorem afterFirstNl_append (xs r : List Char) (h : ∀ c ∈ xs, c ≠ '\n') :
    afterFirstNl (xs ++ '\n' :: r) = r := by
  induction xs with
  | nil => simp [afterFirstNl]
  | cons c t ih =>
    have hc : c ≠ '\n' := h c (by simp)
    simp only [List.cons_append, afterFirstNl, if_neg hc]
    exact ih (fun c2 hc2 => h c2 (by simp [hc2]))

theorem containsNl_mid (a b : List Char) : containsNl (a ++ '\n' :: b) = true := by
  simp [containsNl]

theorem containsTicks_append_ticks : ∀ (x : List Char),
    containsTicks (x ++ fenceTicks) = true
  | [] => by decide
  | c :: r => by simp [containsTicks, containsTicks_append_ticks r]

theorem beforeLastTicks_append : ∀ (body : List Char),
    beforeLastTicks (body ++ '\n' :: fenceTicks) = body ++ ['\n']
  | [] => by decide
  | c :: r => by
    have h : containsTicks (r ++ '\n' :: fenceTicks) = true := by
      have h2 := containsTicks_append_ticks (r ++ ['\n'])
      simpa [List.append_assoc] using h2
    simp [beforeLastTicks, h, beforeLastTicks_append r]

/-- C5: a generation text that is a fenced code block — a fence marker line
(the marker plus any newline-free tag), a body, and a closing marker — is
sanitized to exactly the re-trimmed body; surrounding whitespace around the
whole block is absorbed by the initial trim; and on the spec's stubbed
response text `"```json\n{\"j1\":10}\n```"` the whole translator returns the
decoded payload `{"j1":10}`. -/
theorem C5_fence_sanitization :
    (∀ (lang body : List Char), containsNl lang = false →
      sanitize_response
          (String.mk (fenceTicks ++ lang ++ '\n' :: (body ++ '\n' :: fenceTicks)))
        = String.mk (pyStrip body))
    ∧ (∀ raw : String,
        sanitize_response (String.mk ((' ' :: raw.data) ++ ['\n'])) = sanitize_response raw)
    ∧ query_ollama_payload (some (200,
        JObj.cons "response" (Json.str "```json\n\x7b\"j1\":10\x7d\n```") JObj.nil))
      = Except.ok (some (Json.obj (JObj.cons "j1" (Json.num "10") JObj.nil))) := by
  refine ⟨?_, ?_, by decide⟩
  · intro lang body hlang
    have hlang' : ∀ c ∈ lang, c ≠ '\n' := by
      intro c hc
      have h2 := (List.any_eq_false.mp hlang) c hc
      simpa using h2
    suffices h : sanitize_core (fenceTicks ++ lang ++ '\n' :: (body ++ '\n' :: fenceTicks))
        = pyStrip body from congrArg String.mk h
    have hhead : (fenceTicks ++ lang ++ '\n' :: (body ++ '\n' :: fenceTicks)).head?
        = some btick := by
      simp [fenceTicks]
    have hrev : (fenceTicks ++ lang ++ '\n' :: (body ++ '\n' :: fenceTicks)).reverse.head?
        = some btick := by
      rw [show fenceTicks ++ lang ++ '\n' :: (body ++ '\n' :: fenceTicks)
            = (fenceTicks ++ lang ++ ('\n' :: body) ++ ['\n']) ++ fenceTicks by simp]
      simp [fenceTicks, List.reverse_append]
    have hstrip : pyStrip (fenceTicks ++ lang ++ '\n' :: (body ++ '\n' :: fenceTicks))
        = fenceTicks ++ lang ++ '\n' :: (body ++ '\n' :: fenceTicks) := by
      apply pyStrip_eq_self
      · intro c hc
        rw [hhead, Option.some.injEq] at hc
        rw [← hc]
        decide
      · intro c hc
        rw [hrev, Option.some.injEq] at hc
        rw [← hc]
        decide
    have hstart : startsWithL fenceTicks
        (fenceTicks ++ lang ++ '\n' :: (body ++ '\n' :: fenceTicks)) = true := by
      rw [List.append_assoc]
      exact startsWithL_self_append _ _
    have hnl : containsNl (fenceTicks ++ lang ++ '\n' :: (body ++ '\n' :: fenceTicks))
        = true := containsNl_mid _ _
    have hafter : afterFirstNl (fenceTicks ++ lang ++ '\n' :: (body ++ '\n' :: fenceTicks))
        = body ++ '\n' :: fenceTicks := by
      apply afterFirstNl_append
      intro c hc
      rcases List.mem_append.mp hc with h | h
      · simp only [fenceTicks, List.mem_cons, List.not_mem_nil, or_false] at h
        rcases h with rfl | rfl | rfl <;> decide
      · exact hlang' c h
    have hends : endsWithL fenceTicks (body ++ '\n' :: fenceTicks) = true := by
      rw [show body ++ '\n' :: fenceTicks = (body ++ ['\n']) ++ fenceTicks by simp]
      exact endsWithL_append_self _ _
    simp only [sanitize_core, hstrip, hstart, hnl, if_true, hafter, hends,
      beforeLastTicks_append body, pyStrip_append_ws body '\n' (by decide)]
  · intro raw
    suffices h : sanitize_core ((' ' :: raw.data) ++ ['\n']) = sanitize_core raw.data from
      congrArg String.mk h
    simp only [sanitize_core, pyStrip_append_ws (' ' :: raw.data) '\n' (by decide),
      pyStrip_cons_ws ' ' (by decide) raw.data]

/-- Witness for C5: the literal fenced stub, tag `json`, body `{"j1":10}`. -/
theorem C5_fence_sanitization_witness :
    sanitize_response (String.mk (fenceTicks ++ "json".data
        ++ '\n' :: ("\x7b\"j1\":10\x7d".data ++ '\n' :: fenceTicks)))
      = String.mk (pyStrip ("\x7b\"j1\":10\x7d".data)) :=
  C5_fence_sanitization.1 "json".data "\x7b\"j1\":10\x7d".data (by decide)

/-! ### The number scanner: split and frame lemmas -/

theorem spanDigits_append (ds x : List Char) (hds : ∀ d ∈ ds, d.isDigit = true)
    (hx : headNotDigit x = true) :
    (ds ++ x).takeWhile Char.isDigit = ds ∧ (ds ++ x).dropWhile Char.isDigit = x := by
  induction ds with
  | nil =>
    cases x with
    | nil => exact ⟨rfl, rfl⟩
    | cons c r =>
      have hc : c.isDigit = false := by simpa [headNotDigit] using hx
      simp [List.takeWhile_cons, List.dropWhile_cons, hc]
  | cons d t ih =>
    have hd : d.isDigit = true := hds d (by simp)
    obtain ⟨h1, h2⟩ := ih (fun d2 hd2 => hds d2 (by simp [hd2]))
    simp [List.takeWhile_cons, List.dropWhile_cons, hd, h1, h2]

theorem intPart_split (cs ip rest : List Char) (h : intPart cs = some (ip, rest)) :
    cs = ip ++ rest ∧ ipShape ip := by
  cases cs with
  | nil => simp [intPart] at h
  | cons c r =>
    by_cases hc : c = '0'
    · subst hc
      simp only [intPart, if_pos rfl, Option.some.injEq, Prod.mk.injEq] at h
      obtain ⟨rfl, rfl⟩ := h
      exact ⟨rfl, Or.inl rfl⟩
    · by_cases hd : c.isDigit
      · simp only [intPart, if_neg hc, if_pos hd, Option.some.injEq, Prod.mk.injEq] at h
        obtain ⟨rfl, rfl⟩ := h
        refine ⟨by simp [List.takeWhile_append_dropWhile], Or.inr ⟨c, _, rfl, hd, hc, ?_⟩⟩
        intro d hdm
        exact List.mem_takeWhile_imp hdm
      · simp [intPart, hc, hd] at h

theorem intPart_frame (ip x : List Char) (hip : ipShape ip) (hx : headNotDigit x = true) :
    intPart (ip ++ x) = some (ip, x) := by
  rcases hip with rfl | ⟨c, ds, rfl, hc, hc0, hds⟩
  · simp [intPart]
  · obtain ⟨h1, h2⟩ := spanDigits_append ds x hds hx
    simp [intPart, hc, hc0, h1, h2]

theorem fracPart_split (cs fp rest : List Char) (h : fracPart cs = (fp, rest)) :
    cs = fp ++ rest ∧ fpShape fp := by
  unfold fracPart at h
  split at h
  · rename_i c1 r1
    by_cases hd : c1.isDigit
    · rw [if_pos hd, Prod.mk.injEq] at h
      obtain ⟨rfl, rfl⟩ := h
      refine ⟨by simp [List.takeWhile_append_dropWhile], Or.inr ⟨c1, _, rfl, hd, ?_⟩⟩
      intro d hdm
      exact List.mem_takeWhile_imp hdm
    · rw [if_neg hd, Prod.mk.injEq] at h
      obtain ⟨rfl, rfl⟩ := h
      exact ⟨rfl, Or.inl rfl⟩
  · rw [Prod.mk.injEq] at h
    obtain ⟨rfl, rfl⟩ := h
    exact ⟨rfl, Or.inl rfl⟩

theorem fracPart_not_dot (c : Char) (r : List Char) (hc : c ≠ '.') :
    fracPart (c :: r) = ([], c :: r) := by
  unfold fracPart
  split
  · rename_i c1 r1 heq
    injection heq with h1 _
    exact absurd h1 hc
  · rfl

theorem fracPart_frame (fp x : List Char) (hfp : fpShape fp)
    (h0 : fp = [] → fracPart x = ([], x))
    (h1 : fp ≠ [] → headNotDigit x = true) :
    fracPart (fp ++ x) = (fp, x) := by
  rcases hfp with rfl | ⟨d, ds, rfl, hd, hds⟩
  · simpa using h0 rfl
  · obtain ⟨ht, hw⟩ := spanDigits_append ds x hds (h1 (by simp))
    simp [fracPart, hd, ht, hw]

theorem expPart_not_marker (x : List Char)
    (hx : ∀ e r, x = e :: r → e ≠ 'e' ∧ e ≠ 'E') : expPart x = ([], x) := by
  cases x with
  | nil => rfl
  | cons e r =>
    obtain ⟨h1, h2⟩ := hx e r rfl
    simp [expPart, h1, h2]

theorem expPart_split (cs ep rest : List Char) (h : expPart cs = (ep, rest)) :
    cs = ep ++ rest ∧ epShape ep := by
  unfold expPart at h
  split at h
  · rename_i e rest0
    by_cases he : e = 'e' || e = 'E'
    · rw [if_pos he] at h
      split at h
      · rename_i s d r
        by_cases hs : s = '+' || s = '-'
        · rw [if_pos hs] at h
          by_cases hd : d.isDigit
          · rw [if_pos hd, Prod.mk.injEq] at h
            obtain ⟨rfl, rfl⟩ := h
            refine ⟨by simp [List.takeWhile_append_dropWhile],
              Or.inr ⟨e, [s], d, r.takeWhile Char.isDigit, by simp, by simpa using he,
                ?_, hd, ?_⟩⟩
            · rcases (by simpa using hs : s = '+' ∨ s = '-') with rfl | rfl
              · exact Or.inr (Or.inl rfl)
              · exact Or.inr (Or.inr rfl)
            · intro y hy
              exact List.mem_takeWhile_imp hy
          · rw [if_neg hd, Prod.mk.injEq] at h
            obtain ⟨rfl, rfl⟩ := h
            exact ⟨rfl, Or.inl rfl⟩
        · rw [if_neg hs] at h
          by_cases hsd : s.isDigit
          · rw [if_pos hsd, Prod.mk.injEq] at h
            obtain ⟨rfl, rfl⟩ := h
            refine ⟨by simp [List.takeWhile_append_dropWhile],
              Or.inr ⟨e, [], s, (d :: r).takeWhile Char.isDigit, by simp,
                by simpa using he, Or.inl rfl, hsd, ?_⟩⟩
            intro y hy
            exact List.mem_takeWhile_imp hy
          · rw [if_neg hsd, Prod.mk.injEq] at h
            obtain ⟨rfl, rfl⟩ := h
            exact ⟨rfl, Or.inl rfl⟩
      · rename_i d
        by_cases hd : d.isDigit
        · rw [if_pos hd, Prod.mk.injEq] at h
          obtain ⟨rfl, rfl⟩ := h
          exact ⟨by simp, Or.inr ⟨e, [], d, [], by simp, by simpa using he, Or.inl rfl, hd,
            by intro y hy; simp at hy⟩⟩
        · rw [if_neg hd, Prod.mk.injEq] at h
          obtain ⟨rfl, rfl⟩ := h
          exact ⟨rfl, Or.inl rfl⟩
      · rw [Prod.mk.injEq] at h
        obtain ⟨rfl, rfl⟩ := h
        exact ⟨rfl, Or.inl rfl⟩
    · rw [if_neg he, Prod.mk.injEq] at h
      obtain ⟨rfl, rfl⟩ := h
      exact ⟨rfl, Or.inl rfl⟩
  · rw [Prod.mk.injEq] at h
    obtain ⟨rfl, rfl⟩ := h
    exact ⟨rfl, Or.inl rfl⟩

theorem scanSign_neg (r : List Char) : scanSign ('-' :: r) = (['-'], r) := rfl

theorem scanSign_default (c : Char) (r : List Char) (hc : c ≠ '-') :
    scanSign (c :: r) = ([], c :: r) := by
  unfold scanSign
  split
  · rename_i rr heq
    injection heq with h1 _
    exact absurd h1 hc
  · rfl

theorem scanNumber_split (cs m rest : List Char) (h : scanNumber cs = some (m, rest)) :
    ∃ sgn ip fp ep, (sgn = [] ∨ sgn = ['-']) ∧ ipShape ip ∧ fpShape fp ∧ epShape ep
      ∧ m = sgn ++ ip ++ fp ++ ep ∧ cs = sgn ++ (ip ++ (fp ++ (ep ++ rest))) := by
  rcases hsg : scanSign cs with ⟨sg, cs1⟩
  have hsgshape : (sg = [] ∧ cs1 = cs) ∨ (sg = ['-'] ∧ cs = '-' :: cs1) := by
    unfold scanSign at hsg
    split at hsg
    · rw [Prod.mk.injEq] at hsg
      exact Or.inr ⟨hsg.1.symm, by rw [hsg.2]⟩
    · rw [Prod.mk.injEq] at hsg
      exact Or.inl ⟨hsg.1.symm, hsg.2.symm⟩
  unfold scanNumber at h
  rw [hsg] at h
  rcases hip : intPart cs1 with _ | ⟨ip, rest1⟩
  · rw [hip] at h
    simp at h
  · rw [hip] at h
    rcases hfp : fracPart rest1 with ⟨fp, rest2⟩
    rcases hep : expPart rest2 with ⟨ep, rest3⟩
    simp only [hfp, hep, Option.some.injEq, Prod.mk.injEq] at h
    obtain ⟨rfl, rfl⟩ := h
    obtain ⟨hcs1, hipS⟩ := intPart_split cs1 ip rest1 hip
    obtain ⟨hcs2, hfpS⟩ := fracPart_split rest1 fp rest2 hfp
    obtain ⟨hcs3, hepS⟩ := expPart_split rest2 ep rest3 hep
    rcases hsgshape with ⟨rfl, rfl⟩ | ⟨rfl, hcons⟩
    · exact ⟨[], ip, fp, ep, Or.inl rfl, hipS, hfpS, hepS, by simp,
        by simp [hcs1, hcs2, hcs3, List.append_assoc]⟩
    · exact ⟨['-'], ip, fp, ep, Or.inr rfl, hipS, hfpS, hepS, rfl,
        by simp [hcons, hcs1, hcs2, hcs3, List.append_assoc]⟩

theorem ipShape_head (ip : List Char) (h : ipShape ip) :
    ∃ c r, ip = c :: r ∧ c.isDigit = true := by
  rcases h with rfl | ⟨c, ds, rfl, hc, _, _⟩
  · exact ⟨'0', [], rfl, by decide⟩
  · exact ⟨c, ds, rfl, hc⟩

theorem scanNumber_build (sgn ip fp ep x : List Char)
    (hsgn : sgn = [] ∨ sgn = ['-']) (hip : ipShape ip)
    (hint : intPart (ip ++ (fp ++ (ep ++ x))) = some (ip, fp ++ (ep ++ x)))
    (hfr : fracPart (fp ++ (ep ++ x)) = (fp, ep ++ x))
    (hex : expPart (ep ++ x) = (ep, x)) :
    scanNumber (sgn ++ (ip ++ (fp ++ (ep ++ x)))) = some (sgn ++ ip ++ fp ++ ep, x) := by
  obtain ⟨c, r, rfl, hcd⟩ := ipShape_head ip hip
  have hcm : c ≠ '-' := by
    intro hEq
    rw [hEq] at hcd
    exact absurd hcd (by decide)
  have hsign : scanSign (sgn ++ ((c :: r) ++ (fp ++ (ep ++ x))))
      = (sgn, (c :: r) ++ (fp ++ (ep ++ x))) := by
    rcases hsgn with rfl | rfl
    · simpa using scanSign_default c (r ++ (fp ++ (ep ++ x))) hcm
    · simpa using scanSign_neg ((c :: r) ++ (fp ++ (ep ++ x)))
  unfold scanNumber
  rw [hsign]
  simp only [hint, hfr, hex]

theorem digit_ne_signs (d : Char) (hd : d.isDigit = true) : (d = '+' || d = '-') = false := by
  by_cases h1 : d = '+'
  · rw [h1] at hd
    exact absurd hd (by decide)
  · by_cases h2 : d = '-'
    · rw [h2] at hd
      exact absurd hd (by decide)
    · simp [h1, h2]

theorem expPart_frame (ep x : List Char) (hep : epShape ep)
    (h0 : ep = [] → expPart x = ([], x))
    (h1 : ep ≠ [] → headNotDigit x = true) :
    expPart (ep ++ x) = (ep, x) := by
  rcases hep with rfl | ⟨e, sg, d, ds, rfl, he, hsg, hd, hds⟩
  · simpa using h0 rfl
  · obtain ⟨ht, hw⟩ := spanDigits_append ds x hds (h1 (by simp))
    have hemark : (e = 'e' || e = 'E') = true := by
      rcases he with rfl | rfl <;> decide
    rcases hsg with rfl | rfl | rfl
    · cases hdsx : ds ++ x with
      | nil =>
        obtain ⟨hds0, hx0⟩ := List.append_eq_nil.mp hdsx
        subst hds0
        subst hx0
        simp [expPart, hemark, hd]
      | cons y ys =>
        have hshape : (e :: ([] ++ d :: ds)) ++ x = e :: d :: (ds ++ x) := by simp
        rw [hshape, hdsx]
        rw [← hdsx, show expPart (e :: d :: (ds ++ x))
            = (e :: d :: (ds ++ x).takeWhile Char.isDigit, (ds ++ x).dropWhile Char.isDigit)
          from ?side]
        · rw [ht, hw]
          simp
        case side =>
          cases hdsx2 : ds ++ x with
          | nil => rw [hdsx2] at hdsx; exact absurd hdsx (by simp)
          | cons z zs =>
            simp only [expPart, hemark, if_true, digit_ne_signs d hd, hd]
            simp
    · have hshape : (e :: (['+'] ++ d :: ds)) ++ x = e :: '+' :: d :: (ds ++ x) := by simp
      rw [hshape]
      simp only [expPart, hemark, if_true, hd]
      rw [ht, hw]
      simp
    · have hshape : (e :: (['-'] ++ d :: ds)) ++ x = e :: '-' :: d :: (ds ++ x) := by simp
      rw [hshape]
      simp only [expPart, hemark, if_true, hd]
      rw [ht, hw]
      simp

theorem numStop_facts (c : Char) (r : List Char) (h : numStop (c :: r) = true) :
    c.isDigit = false ∧ c ≠ '.' ∧ c ≠ 'e' ∧ c ≠ 'E' := by
  simp only [numStop, Bool.not_eq_true', Bool.or_eq_false_iff] at h
  refine ⟨h.1.1.1, ?_, ?_, ?_⟩
  · simpa using h.1.1.2
  · simpa using h.1.2
  · simpa using h.2

theorem scanNumber_extend (s t : List Char) (h : scanNumber s = some (s, []))
    (ht : numStop t = true) :
    scanNumber (s ++ t) = some (s, t) := by
  obtain ⟨sgn, ip, fp, ep, hsgn, hip, hfp, hep, hm, hcs⟩ := scanNumber_split s s [] h
  have htnd : headNotDigit t = true := by
    cases t with
    | nil => rfl
    | cons c r =>
      obtain ⟨h1, -, -, -⟩ := numStop_facts c r ht
      simp [headNotDigit, h1]
  have htfrac : fracPart t = ([], t) := by
    cases t with
    | nil => rfl
    | cons c r =>
      obtain ⟨-, h2, -, -⟩ := numStop_facts c r ht
      exact fracPart_not_dot c r h2
  have htexp : expPart t = ([], t) := by
    apply expPart_not_marker
    intro e r hEq
    cases t with
    | nil => exact absurd hEq (by simp)
    | cons c r2 =>
      injection hEq with h1 h2
      obtain ⟨-, -, h3, h4⟩ := numStop_facts c r2 ht
      rw [← h1]
      exact ⟨h3, h4⟩
  have hx_ip : headNotDigit (fp ++ (ep ++ t)) = true := by
    rcases hfp with rfl | ⟨d, ds, rfl, hd2, hds⟩
    · rcases hep with rfl | ⟨e, sg, d, ds, rfl, he, -, -, -⟩
      · simpa using htnd
      · rcases he with rfl | rfl <;> simp [headNotDigit]
    · simp [headNotDigit]
  have hfr : fracPart (fp ++ (ep ++ t)) = (fp, ep ++ t) := by
    apply fracPart_frame fp _ hfp
    · intro _
      rcases hep with rfl | ⟨e, sg, d, ds, rfl, he, -, -, -⟩
      · simpa using htfrac
      · rcases he with rfl | rfl <;> exact fracPart_not_dot _ _ (by decide)
    · intro _
      rcases hep with rfl | ⟨e, sg, d, ds, rfl, he, -, -, -⟩
      · simpa using htnd
      · rcases he with rfl | rfl <;> simp [headNotDigit]
  have hex : expPart (ep ++ t) = (ep, t) := by
    apply expPart_frame ep t hep
    · intro _
      exact htexp
    · intro _
      exact htnd
  have hint : intPart (ip ++ (fp ++ (ep ++ t))) = some (ip, fp ++ (ep ++ t)) :=
    intPart_frame ip _ hip hx_ip
  have hst : s ++ t = sgn ++ (ip ++ (fp ++ (ep ++ t))) := by
    rw [hm]
    simp [List.append_assoc]
  rw [hst, scanNumber_build sgn ip fp ep t hsgn hip hint hfr hex, ← hm]

theorem scanNumber_self_head (s : List Char) (h : scanNumber s = some (s, [])) :
    ∃ c r, s = c :: r ∧ (c = '-' ∨ c.isDigit = true) := by
  obtain ⟨sgn, ip, fp, ep, hsgn, hip, -, -, -, hcs⟩ := scanNumber_split s s [] h
  obtain ⟨c, r, rfl, hcd⟩ := ipShape_head ip hip
  rcases hsgn with rfl | rfl
  · refine ⟨c, r ++ (fp ++ (ep ++ [])), ?_, Or.inr hcd⟩
    simpa using hcs
  · refine ⟨'-', (c :: r) ++ (fp ++ (ep ++ [])), ?_, Or.inl rfl⟩
    simpa using hcs

/-! ### The string codec round-trip -/

theorem char_scalar_range (c : Char) : c.toNat < 55296 ∨ 57343 < c.toNat := by
  rcases c.valid with h | h
  · exact Or.inl h
  · exact Or.inr h.1

theorem char_not_hi (c : Char) : (55296 ≤ c.toNat && c.toNat ≤ 56319) = false := by
  have h := char_scalar_range c
  simp only [Bool.and_eq_false_iff, decide_eq_false_iff_not, not_le]
  omega

theorem pairSurrogates_map : ∀ (s : List Char), pairSurrogates (s.map Char.toNat) = s
  | [] => rfl
  | [c] => by simp [pairSurrogates, Char.ofNat_toNat]
  | c :: c2 :: r => by
    have h := char_not_hi c
    have ih := pairSurrogates_map (c2 :: r)
    simp only [List.map_cons] at ih
    simp [pairSurrogates, h, Char.ofNat_toNat, ih]

theorem hexVal_hexDig : ∀ n, n < 16 → hexVal (hexDig n) = some n := by decide

theorem scanStrU_cons_raw (c : Char) (r : List Char) (h1 : c ≠ '"') (h2 : c ≠ '\\')
    (h3 : 32 ≤ c.toNat) :
    scanStrU (c :: r) = (scanStrU r).map (fun pr => (c.toNat :: pr.1, pr.2)) := by
  conv_lhs => rw [scanStrU.eq_def]
  split
  any_goals first
    | rfl
    | exact absurd rfl h1
    | exact absurd rfl h2
    | (rename_i heq
       first
         | (injection heq with hh _
            first
              | exact absurd hh h1
              | exact absurd hh h2)
         | simp at heq)
  case h_6 =>
    obtain ⟨hh1, hh2⟩ := heq
    subst hh1
    subst hh2
    rw [if_neg (by omega)]

theorem scanStrU_escape : ∀ (cs t : List Char),
    scanStrU (escapeStr cs ++ '"' :: t) = some (cs.map Char.toNat, t)
  | [], t => by simp [escapeStr, scanStrU]
  | c :: rest, t => by
    have ih := scanStrU_escape rest t
    by_cases h1 : c = '"'
    · subst h1
      simp [escapeStr, escChar, scanStrU, escDecode, ih]
    · by_cases h2 : c = '\\'
      · subst h2
        simp [escapeStr, escChar, scanStrU, escDecode, ih]
      · by_cases h3 : c = Char.ofNat 8
        · subst h3
          simp [escapeStr, escChar, scanStrU, escDecode, ih]
        · by_cases h4 : c = '\t'
          · subst h4
            simp [escapeStr, escChar, scanStrU, escDecode, ih]
          · by_cases h5 : c = '\n'
            · subst h5
              simp [escapeStr, escChar, scanStrU, escDecode, ih]
            · by_cases h6 : c = Char.ofNat 12
              · subst h6
                simp [escapeStr, escChar, scanStrU, escDecode, ih]
              · by_cases h7 : c = '\r'
                · subst h7
                  simp [escapeStr, escChar, scanStrU, escDecode, ih]
                · by_cases h8 : c.toNat < 32
                  · have e1 : hexVal (hexDig (c.toNat / 16)) = some (c.toNat / 16) :=
                      hexVal_hexDig _ (by omega)
                    have e2 : hexVal (hexDig (c.toNat % 16)) = some (c.toNat % 16) :=
                      hexVal_hexDig _ (by omega)
                    have harith : ((0 * 16 + 0) * 16 + c.toNat / 16) * 16 + c.toNat % 16
                        = c.toNat := by omega
                    simp only [escapeStr, escChar, if_neg h1, if_neg h2, if_neg h3, if_neg h4,
                      if_neg h5, if_neg h6, if_neg h7, if_pos h8, List.cons_append,
                      List.append_assoc, List.nil_append]
                    simp only [scanStrU]
                    rw [e1, e2, show hexVal '0' = some 0 from by decide]
                    simp [ih]
                    omega
                  · simp only [escapeStr, escChar, if_neg h1, if_neg h2, if_neg h3, if_neg h4,
                      if_neg h5, if_neg h6, if_neg h7, if_neg h8, List.cons_append,
                      List.append_assoc, List.nil_append, List.singleton_append]
                    rw [scanStrU_cons_raw c _ h1 h2 (by omega), ih]
                    rfl

theorem scanStr_escape (cs t : List Char) :
    scanStr (escapeStr cs ++ '"' :: t) = some (cs, t) := by
  unfold scanStr
  rw [scanStrU_escape cs t]
  simp [pairSurrogates_map]

/-! ### Heads of serialized values, whitespace, and `dict(pairs)` identity -/

theorem skipWs_cons_not (c : Char) (r : List Char) (h : jsonWs c = false) :
    skipWs (c :: r) = c :: r := by
  simp [skipWs, h]

theorem digit_not_ws (c : Char) (h : c.isDigit = true) : jsonWs c = false := by
  simp only [jsonWs, Bool.or_eq_false_iff, decide_eq_false_iff_not]
  refine ⟨⟨⟨?_, ?_⟩, ?_⟩, ?_⟩ <;> intro hEq <;> rw [hEq] at h <;> exact absurd h (by decide)

theorem digit_ne_rbrack (c : Char) (h : c.isDigit = true) : c ≠ ']' := by
  intro hEq
  rw [hEq] at h
  exact absurd h (by decide)

theorem dumpJson_head (v : Json) (hwf : wfJson v = true) :
    ∃ c r, dumpJson v = c :: r ∧ jsonWs c = false ∧ c ≠ ']' := by
  cases v with
  | null => exact ⟨'n', _, rfl, by decide, by decide⟩
  | bool b => cases b with
    | true => exact ⟨'t', _, rfl, by decide, by decide⟩
    | false => exact ⟨'f', _, rfl, by decide, by decide⟩
  | str s => exact ⟨'"', _, rfl, by decide, by decide⟩
  | arr a => exact ⟨'[', _, rfl, by decide, by decide⟩
  | obj o => exact ⟨lbrace, _, rfl, by decide, by decide⟩
  | num s =>
    have hsc : scanNumber s.data = some (s.data, []) := of_decide_eq_true hwf
    obtain ⟨c, r, hcr, hd⟩ := scanNumber_self_head s.data hsc
    refine ⟨c, r, by simp [dumpJson, hcr], ?_, ?_⟩
    · rcases hd with rfl | hd
      · decide
      · exact digit_not_ws c hd
    · rcases hd with rfl | hd
      · decide
      · exact digit_ne_rbrack c hd

theorem skipWs_dump (v : Json) (hwf : wfJson v = true) (x : List Char) :
    skipWs (dumpJson v ++ x) = dumpJson v ++ x := by
  obtain ⟨c, r, hv, hws, -⟩ := dumpJson_head v hwf
  rw [hv, List.cons_append, skipWs_cons_not c _ hws]

theorem skipWs_space_dump (v : Json) (hwf : wfJson v = true) (x : List Char) :
    skipWs (' ' :: (dumpJson v ++ x)) = dumpJson v ++ x := by
  rw [show skipWs (' ' :: (dumpJson v ++ x)) = skipWs (dumpJson v ++ x) from by
    simp [skipWs, jsonWs]]
  exact skipWs_dump v hwf x

theorem JObj.append_nil : ∀ (a : JObj), a.append JObj.nil = a
  | JObj.nil => rfl
  | JObj.cons k v tl => by rw [JObj.append, JObj.append_nil tl]

theorem JObj.append_assoc : ∀ (a b c : JObj),
    (a.append b).append c = a.append (b.append c)
  | JObj.nil, _, _ => rfl
  | JObj.cons k v tl, b, c => by
    simp [JObj.append, JObj.append_assoc tl b c]

theorem JObj.keys_append : ∀ (a b : JObj), (a.append b).keys = a.keys ++ b.keys
  | JObj.nil, _ => rfl
  | JObj.cons k v tl, b => by simp [JObj.append, JObj.keys, JObj.keys_append tl b]

theorem JObj.hasKey_iff_mem : ∀ (o : JObj) (k : String), o.hasKey k = true ↔ k ∈ o.keys
  | JObj.nil, k => by simp [JObj.hasKey, JObj.get?, JObj.keys]
  | JObj.cons k2 v tl, k => by
    by_cases h : k2 = k
    · simp [JObj.hasKey, JObj.get?, JObj.keys, h]
    · rw [JObj.keys]
      rw [show (JObj.cons k2 v tl).hasKey k = tl.hasKey k from by
        simp [JObj.hasKey, JObj.get?, h]]
      rw [JObj.hasKey_iff_mem tl k]
      simp [Ne.symm h]

theorem JObj.insertAll_append : ∀ (pairs acc : JObj), acc.keys.Disjoint pairs.keys →
    pairs.keys.Nodup → JObj.insertAll acc pairs = acc.append pairs
  | JObj.nil, acc, _, _ => by rw [JObj.insertAll, JObj.append_nil]
  | JObj.cons k v tl, acc, hdisj, hnodup => by
    have hkacc : acc.hasKey k = false := by
      rw [← Bool.not_eq_true, JObj.hasKey_iff_mem]
      intro hmem
      exact hdisj hmem (by rw [JObj.keys]; exact List.mem_cons_self k _)
    have hknotin : k ∉ tl.keys := by
      rw [JObj.keys] at hnodup
      exact (List.nodup_cons.mp hnodup).1
    have hdisj2 : (acc.append (JObj.cons k v JObj.nil)).keys.Disjoint tl.keys := by
      rw [JObj.keys_append]
      intro a ha hb
      rcases List.mem_append.mp ha with ha2 | ha2
      · exact hdisj ha2 (by rw [JObj.keys]; exact List.mem_cons_of_mem k hb)
      · rw [JObj.keys] at ha2
        simp only [JObj.keys, List.mem_singleton] at ha2
        subst ha2
        exact hknotin hb
    have hnodup2 : tl.keys.Nodup := by
      rw [JObj.keys] at hnodup
      exact (List.nodup_cons.mp hnodup).2
    rw [JObj.insertAll, JObj.set_eq_append acc k v hkacc,
      JObj.insertAll_append tl _ hdisj2 hnodup2, JObj.append_assoc]
    rfl

theorem pyDict_id (pairs : JObj) (h : pairs.keys.Nodup) : pyDict pairs = pairs := by
  unfold pyDict
  rw [JObj.insertAll_append pairs JObj.nil (by intro a ha hb; simp [JObj.keys] at ha) h]
  rfl

/-! ### Dispatch helpers for the round-trip -/

theorem digit_facts (c : Char) (h : c.isDigit = true) :
    c ≠ '"' ∧ c ≠ lbrace ∧ c ≠ '[' ∧ ¬('n' = c) ∧ ¬('t' = c) ∧ ¬('f' = c) := by
  refine ⟨?_, ?_, ?_, ?_, ?_, ?_⟩ <;> intro hEq
  · rw [hEq] at h
    exact absurd h (by decide)
  · rw [hEq] at h
    exact absurd h (by decide)
  · rw [hEq] at h
    exact absurd h (by decide)
  · rw [← hEq] at h
    exact absurd h (by decide)
  · rw [← hEq] at h
    exact absurd h (by decide)
  · rw [← hEq] at h
    exact absurd h (by decide)

theorem topBoundary_delim (v : Json) (c : Char) (x : List Char)
    (hc : (c.isDigit || c = '.' || c = 'e' || c = 'E') = false) :
    topBoundary v (c :: x) = true := by
  cases v <;> simp [topBoundary, numStop, hc]

theorem parseVal_num_digit (f : Nat) (c : Char) (r : List Char) (hd : c.isDigit = true)
    (m rest : List Char) (hsc : scanNumber (c :: r) = some (m, rest)) :
    parseVal (Nat.succ f) (c :: r) = some (Json.num (String.mk m), rest) := by
  obtain ⟨hq, hlb, hbk, hn, ht, hf⟩ := digit_facts c hd
  conv_lhs => rw [parseVal.eq_def]
  split
  · rename_i heq
    exact absurd heq (by simp)
  · rename_i f2 heq
    injection heq with hf2
    subst hf2
    split
    · rename_i heq2
      exact absurd heq2 (by simp)
    · rename_i heq2
      injection heq2 with hh _
      exact absurd hh hq
    · rename_i heq2
      injection heq2 with hh1 hh2
      subst hh1
      subst hh2
      rw [if_neg hlb, if_neg hbk]
      rw [show stripLit ['n', 'u', 'l', 'l'] (c :: r) = none from by simp [stripLit, hn]]
      rw [show stripLit ['t', 'r', 'u', 'e'] (c :: r) = none from by simp [stripLit, ht]]
      rw [show stripLit ['f', 'a', 'l', 's', 'e'] (c :: r) = none from by simp [stripLit, hf]]
      rw [hsc]

theorem parseVal_null_entry (f : Nat) (t : List Char) :
    parseVal (Nat.succ f) ('n' :: 'u' :: 'l' :: 'l' :: t) = some (Json.null, t) := by
  conv_lhs => rw [parseVal.eq_def]
  simp [stripLit, lbrace]

theorem parseVal_true_entry (f : Nat) (t : List Char) :
    parseVal (Nat.succ f) ('t' :: 'r' :: 'u' :: 'e' :: t) = some (Json.bool true, t) := by
  conv_lhs => rw [parseVal.eq_def]
  simp [stripLit, lbrace]

theorem parseVal_false_entry (f : Nat) (t : List Char) :
    parseVal (Nat.succ f) ('f' :: 'a' :: 'l' :: 's' :: 'e' :: t) = some (Json.bool false, t) := by
  conv_lhs => rw [parseVal.eq_def]
  simp [stripLit, lbrace]

theorem parseVal_str_entry (f : Nat) (s : String) (t : List Char) :
    parseVal (Nat.succ f) ('"' :: (escapeStr s.data ++ '"' :: t)) = some (Json.str s, t) := by
  conv_lhs => rw [parseVal.eq_def]
  simp [scanStr_escape]

theorem parseVal_num_neg (f : Nat) (r m rest : List Char)
    (hsc : scanNumber ('-' :: r) = some (m, rest)) :
    parseVal (Nat.succ f) ('-' :: r) = some (Json.num (String.mk m), rest) := by
  conv_lhs => rw [parseVal.eq_def]
  simp [stripLit, lbrace, hsc]

theorem parseVal_arr_empty (f : Nat) (t : List Char) :
    parseVal (Nat.succ f) ('[' :: ']' :: t) = some (Json.arr JArr.nil, t) := by
  conv_lhs => rw [parseVal.eq_def]
  simp [skipWs, jsonWs, lbrace]

theorem parseVal_obj_empty (f : Nat) (t : List Char) :
    parseVal (Nat.succ f) (lbrace :: rbrace :: t) = some (Json.obj JObj.nil, t) := by
  conv_lhs => rw [parseVal.eq_def]
  simp [skipWs, jsonWs, lbrace, rbrace]

theorem parseVal_arr_entry (f : Nat) (c : Char) (Y : List Char) (a : JArr) (rest : List Char)
    (hws : jsonWs c = false) (hrb : c ≠ ']')
    (hp : parseElems f (c :: Y) = some (a, rest)) :
    parseVal (Nat.succ f) ('[' :: c :: Y) = some (Json.arr a, rest) := by
  conv_lhs => rw [parseVal.eq_def]
  simp [skipWs_cons_not c Y hws, hrb, hp, lbrace]

theorem parseVal_obj_entry (f : Nat) (c : Char) (Y : List Char) (o : JObj) (rest : List Char)
    (hws : jsonWs c = false) (hrb : c ≠ rbrace)
    (hp : parseMembers f (c :: Y) = some (o, rest)) :
    parseVal (Nat.succ f) (lbrace :: c :: Y) = some (Json.obj (pyDict o), rest) := by
  rw [show rbrace = Char.ofNat 125 from rfl] at hrb
  conv_lhs => rw [parseVal.eq_def]
  simp [skipWs_cons_not c Y hws, hrb, hp, lbrace, rbrace]

/-! ### Fuel bounds: the serialization is long enough to drive the parser -/

theorem band_true (a b : Bool) (h : (a && b) = true) : a = true ∧ b = true :=
  Bool.and_eq_true a b ▸ h

mutual
theorem jfuel_le : ∀ (v : Json), wfJson v = true → jfuel v ≤ (dumpJson v).length
  | Json.null, _ => by decide
  | Json.bool b, _ => by cases b <;> decide
  | Json.str s, _ => by
    simp [jfuel, dumpJson]
  | Json.num s, hwf => by
    have hsc : scanNumber s.data = some (s.data, []) := of_decide_eq_true hwf
    obtain ⟨c, r, hcr, -⟩ := scanNumber_self_head s.data hsc
    simp [jfuel, dumpJson, hcr]
  | Json.arr a, hwf => by
    have h := afuel_le a hwf
    simp only [jfuel, dumpJson]
    simp only [List.cons_append, List.length_cons, List.length_append]
    omega
  | Json.obj o, hwf => by
    have hsp := band_true _ _ (show (wfObj o && decide o.keys.Nodup) = true from hwf)
    have h := ofuel_le o hsp.1
    simp only [jfuel, dumpJson]
    simp only [List.cons_append, List.length_cons, List.length_append]
    omega
theorem afuel_le : ∀ (a : JArr), wfArr a = true → afuel a ≤ (dumpArr a).length + 1
  | JArr.nil, _ => by decide
  | JArr.cons h JArr.nil, hwf => by
    have hsp := band_true _ _ (show (wfJson h && wfArr JArr.nil) = true from hwf)
    have ih := jfuel_le h hsp.1
    simp only [afuel, dumpArr]
    omega
  | JArr.cons h (JArr.cons h2 tl), hwf => by
    have hsp := band_true _ _
      (show (wfJson h && wfArr (JArr.cons h2 tl)) = true from hwf)
    have ih1 := jfuel_le h hsp.1
    have ih2 := afuel_le (JArr.cons h2 tl) hsp.2
    simp only [afuel] at ih2 ⊢
    simp only [dumpArr, List.length_append, List.length_cons]
    omega
theorem ofuel_le : ∀ (o : JObj), wfObj o = true → ofuel o ≤ (dumpObj o).length + 1
  | JObj.nil, _ => by decide
  | JObj.cons k v JObj.nil, hwf => by
    have hsp := band_true _ _ (show (wfJson v && wfObj JObj.nil) = true from hwf)
    have ih := jfuel_le v hsp.1
    simp only [ofuel, dumpObj]
    simp only [List.cons_append, List.length_cons, List.length_append]
    omega
  | JObj.cons k v (JObj.cons k2 v2 tl), hwf => by
    have hsp := band_true _ _
      (show (wfJson v && wfObj (JObj.cons k2 v2 tl)) = true from hwf)
    have ih1 := jfuel_le v hsp.1
    have ih2 := ofuel_le (JObj.cons k2 v2 tl) hsp.2
    simp only [ofuel] at ih2 ⊢
    simp only [dumpObj, List.cons_append, List.length_cons, List.length_append]
    omega
end

/-! ### Heads of serialized member lists -/

theorem dumpArr_cons_head (h : Json) (tl : JArr) (hwh : wfJson h = true) (x : List Char) :
    ∃ c Y, dumpArr (JArr.cons h tl) ++ x = c :: Y ∧ jsonWs c = false ∧ c ≠ ']' := by
  obtain ⟨c, rr, hcr, hws, hrb⟩ := dumpJson_head h hwh
  cases tl with
  | nil => exact ⟨c, rr ++ x, by simp [dumpArr, hcr], hws, hrb⟩
  | cons h2 tl2 =>
    exact ⟨c, rr ++ ',' :: ' ' :: dumpArr (JArr.cons h2 tl2) ++ x,
      by simp [dumpArr, hcr], hws, hrb⟩

theorem skipWs_dumpArr (h : Json) (tl : JArr) (hwh : wfJson h = true) (x : List Char) :
    skipWs (dumpArr (JArr.cons h tl) ++ x) = dumpArr (JArr.cons h tl) ++ x := by
  obtain ⟨c, Y, hY, hws, -⟩ := dumpArr_cons_head h tl hwh x
  rw [hY, skipWs_cons_not c Y hws]

theorem dumpObj_cons_head (k : String) (v : Json) (tl : JObj) (x : List Char) :
    ∃ Y, dumpObj (JObj.cons k v tl) ++ x = '"' :: Y := by
  cases tl with
  | nil => exact ⟨escapeStr k.data ++ '"' :: ':' :: ' ' :: dumpJson v ++ x, by simp [dumpObj]⟩
  | cons k2 v2 tl2 =>
    exact ⟨escapeStr k.data ++ '"' :: ':' :: ' ' :: dumpJson v ++
      ',' :: ' ' :: dumpObj (JObj.cons k2 v2 tl2) ++ x, by simp [dumpObj]⟩

theorem skipWs_dumpObj (k : String) (v : Json) (tl : JObj) (x : List Char) :
    skipWs (dumpObj (JObj.cons k v tl) ++ x) = dumpObj (JObj.cons k v tl) ++ x := by
  obtain ⟨Y, hY⟩ := dumpObj_cons_head k v tl x
  rw [hY, skipWs_cons_not '"' Y (by decide)]

/-! ### The print-parse round-trip -/

mutual
theorem rtVal : ∀ (v : Json) (f : Nat) (t : List Char), wfJson v = true →
    jfuel v ≤ f → topBoundary v t = true →
    parseVal f (dumpJson v ++ t) = some (v, t)
  | Json.null, f, t, _, hfuel, _ => by
    cases f with
    | zero => exact absurd hfuel (by simp only [jfuel]; omega)
    | succ f2 => exact parseVal_null_entry f2 t
  | Json.bool true, f, t, _, hfuel, _ => by
    cases f with
    | zero => exact absurd hfuel (by simp only [jfuel]; omega)
    | succ f2 => exact parseVal_true_entry f2 t
  | Json.bool false, f, t, _, hfuel, _ => by
    cases f with
    | zero => exact absurd hfuel (by simp only [jfuel]; omega)
    | succ f2 => exact parseVal_false_entry f2 t
  | Json.str s, f, t, _, hfuel, _ => by
    cases f with
    | zero => exact absurd hfuel (by simp only [jfuel]; omega)
    | succ f2 =>
      have hsh : dumpJson (Json.str s) ++ t = '"' :: (escapeStr s.data ++ '"' :: t) := by
        simp [dumpJson]
      rw [hsh]
      exact parseVal_str_entry f2 s t
  | Json.num s, f, t, hwf, hfuel, hb => by
    have hsc : scanNumber s.data = some (s.data, []) := of_decide_eq_true hwf
    have hext : scanNumber (s.data ++ t) = some (s.data, t) :=
      scanNumber_extend s.data t hsc (by simpa [topBoundary] using hb)
    obtain ⟨c, r, hcr, hcd⟩ := scanNumber_self_head s.data hsc
    cases f with
    | zero => exact absurd hfuel (by simp only [jfuel]; omega)
    | succ f2 =>
      have hsh : dumpJson (Json.num s) ++ t = c :: (r ++ t) := by simp [dumpJson, hcr]
      have hext2 : scanNumber (c :: (r ++ t)) = some (s.data, t) := by
        rw [← List.cons_append, ← hcr]
        exact hext
      rw [hsh]
      rcases hcd with rfl | hd
      · exact parseVal_num_neg f2 (r ++ t) s.data t hext2
      · exact parseVal_num_digit f2 c (r ++ t) hd s.data t hext2
  | Json.arr JArr.nil, f, t, _, hfuel, _ => by
    cases f with
    | zero => exact absurd hfuel (by simp only [jfuel, afuel]; omega)
    | succ f2 =>
      have hsh : dumpJson (Json.arr JArr.nil) ++ t = '[' :: ']' :: t := by
        simp [dumpJson, dumpArr]
      rw [hsh]
      exact parseVal_arr_empty f2 t
  | Json.arr (JArr.cons h tl), f, t, hwf, hfuel, _ => by
    cases f with
    | zero => exact absurd hfuel (by simp only [jfuel]; omega)
    | succ f2 =>
      have hwA : wfArr (JArr.cons h tl) = true := hwf
      have hfa : afuel (JArr.cons h tl) ≤ f2 := by
        have hfu : 1 + afuel (JArr.cons h tl) ≤ Nat.succ f2 := hfuel
        omega
      have hkey := rtElems (JArr.cons h tl) f2 t hwA (by simp) hfa
      have hwh : wfJson h = true :=
        (band_true _ _ (show (wfJson h && wfArr tl) = true from hwA)).1
      obtain ⟨c, Y, hY, hws, hrb⟩ := dumpArr_cons_head h tl hwh (']' :: t)
      have hsh : dumpJson (Json.arr (JArr.cons h tl)) ++ t = '[' :: c :: Y := by
        rw [show dumpJson (Json.arr (JArr.cons h tl)) ++ t
            = '[' :: (dumpArr (JArr.cons h tl) ++ ']' :: t) from by simp [dumpJson], hY]
      rw [hsh]
      exact parseVal_arr_entry f2 c Y (JArr.cons h tl) t hws hrb (by rw [← hY]; exact hkey)
  | Json.obj JObj.nil, f, t, _, hfuel, _ => by
    cases f with
    | zero => exact absurd hfuel (by simp only [jfuel, ofuel]; omega)
    | succ f2 =>
      have hsh : dumpJson (Json.obj JObj.nil) ++ t = lbrace :: rbrace :: t := by
        simp [dumpJson, dumpObj]
      rw [hsh]
      exact parseVal_obj_empty f2 t
  | Json.obj (JObj.cons k v tl), f, t, hwf, hfuel, _ => by
    cases f with
    | zero => exact absurd hfuel (by simp only [jfuel]; omega)
    | succ f2 =>
      have hsp := band_true _ _
        (show (wfObj (JObj.cons k v tl) && decide (JObj.cons k v tl).keys.Nodup) = true from hwf)
      have hnd : (JObj.cons k v tl).keys.Nodup := of_decide_eq_true hsp.2
      have hfo : ofuel (JObj.cons k v tl) ≤ f2 := by
        have hfu : 1 + ofuel (JObj.cons k v tl) ≤ Nat.succ f2 := hfuel
        omega
      have hkey := rtMembers (JObj.cons k v tl) f2 t hsp.1 (by simp) hfo
      obtain ⟨Y, hY⟩ := dumpObj_cons_head k v tl (rbrace :: t)
      have hsh : dumpJson (Json.obj (JObj.cons k v tl)) ++ t = lbrace :: '"' :: Y := by
        rw [show dumpJson (Json.obj (JObj.cons k v tl)) ++ t
            = lbrace :: (dumpObj (JObj.cons k v tl) ++ rbrace :: t) from by simp [dumpJson], hY]
      rw [hsh]
      rw [parseVal_obj_entry f2 '"' Y (JObj.cons k v tl) t (by decide) (by decide)
        (by rw [← hY]; exact hkey)]
      rw [pyDict_id _ hnd]
theorem rtElems : ∀ (a : JArr) (f : Nat) (t : List Char), wfArr a = true →
    a ≠ JArr.nil → afuel a ≤ f →
    parseElems f (dumpArr a ++ ']' :: t) = some (a, t)
  | JArr.nil, _, _, _, hne, _ => absurd rfl hne
  | JArr.cons h JArr.nil, f, t, hwf, _, hfuel => by
    have hsp := band_true _ _ (show (wfJson h && wfArr JArr.nil) = true from hwf)
    cases f with
    | zero => exact absurd hfuel (by simp only [afuel]; omega)
    | succ f2 =>
      have hfj : jfuel h ≤ f2 := by
        have hfu : 1 + jfuel h + afuel JArr.nil ≤ Nat.succ f2 := hfuel
        simp only [afuel] at hfu
        omega
      have hval := rtVal h f2 (']' :: t) hsp.1 hfj (topBoundary_delim h ']' t (by decide))
      have hsh : dumpArr (JArr.cons h JArr.nil) ++ ']' :: t = dumpJson h ++ ']' :: t := by
        simp [dumpArr]
      rw [hsh]
      simp [parseElems, hval, skipWs, jsonWs]
  | JArr.cons h (JArr.cons h2 tl), f, t, hwf, _, hfuel => by
    have hsp := band_true _ _ (show (wfJson h && wfArr (JArr.cons h2 tl)) = true from hwf)
    cases f with
    | zero => exact absurd hfuel (by simp only [afuel]; omega)
    | succ f2 =>
      have hfu : 1 + jfuel h + afuel (JArr.cons h2 tl) ≤ Nat.succ f2 := hfuel
      have hfj : jfuel h ≤ f2 := by omega
      have hfa : afuel (JArr.cons h2 tl) ≤ f2 := by omega
      have hwh2 : wfJson h2 = true :=
        (band_true _ _ (show (wfJson h2 && wfArr tl) = true from hsp.2)).1
      have hval := rtVal h f2 (',' :: ' ' :: (dumpArr (JArr.cons h2 tl) ++ ']' :: t)) hsp.1 hfj
        (topBoundary_delim h ',' _ (by decide))
      have hrest := rtElems (JArr.cons h2 tl) f2 t hsp.2 (by simp) hfa
      have hskip := skipWs_dumpArr h2 tl hwh2 (']' :: t)
      have hsh : dumpArr (JArr.cons h (JArr.cons h2 tl)) ++ ']' :: t
          = dumpJson h ++ ',' :: ' ' :: (dumpArr (JArr.cons h2 tl) ++ ']' :: t) := by
        simp [dumpArr]
      rw [hsh]
      simp [parseElems, hval, skipWs, jsonWs, hskip, hrest]
theorem rtMembers : ∀ (o : JObj) (f : Nat) (t : List Char), wfObj o = true →
    o ≠ JObj.nil → ofuel o ≤ f →
    parseMembers f (dumpObj o ++ rbrace :: t) = some (o, t)
  | JObj.nil, _, _, _, hne, _ => absurd rfl hne
  | JObj.cons k v JObj.nil, f, t, hwf, _, hfuel => by
    have hsp := band_true _ _ (show (wfJson v && wfObj JObj.nil) = true from hwf)
    cases f with
    | zero => exact absurd hfuel (by simp only [ofuel]; omega)
    | succ f2 =>
      have hfj : jfuel v ≤ f2 := by
        have hfu : 1 + jfuel v + ofuel JObj.nil ≤ Nat.succ f2 := hfuel
        simp only [ofuel] at hfu
        omega
      have hval := rtVal v f2 (rbrace :: t) hsp.1 hfj (topBoundary_delim v rbrace t (by decide))
      have hskipv := skipWs_dump v hsp.1 (rbrace :: t)
      have hra : ¬(rbrace = ' ') := by decide
      have hrb2 : ¬(rbrace = Char.ofNat 9) := by decide
      have hrc : ¬(rbrace = Char.ofNat 10) := by decide
      have hrd : ¬(rbrace = Char.ofNat 13) := by decide
      have hskiprb : skipWs (rbrace :: t) = rbrace :: t := skipWs_cons_not rbrace t (by decide)
      have hsh : dumpObj (JObj.cons k v JObj.nil) ++ rbrace :: t
          = '"' :: (escapeStr k.data ++ '"' :: (':' :: ' ' :: (dumpJson v ++ rbrace :: t))) := by
        simp [dumpObj]
      rw [hsh]
      simp [parseMembers, scanStr_escape, skipWs, jsonWs, hskipv, hval, hra, hrb2, hrc, hrd]
  | JObj.cons k v (JObj.cons k2 v2 tl), f, t, hwf, _, hfuel => by
    have hsp := band_true _ _ (show (wfJson v && wfObj (JObj.cons k2 v2 tl)) = true from hwf)
    cases f with
    | zero => exact absurd hfuel (by simp only [ofuel]; omega)
    | succ f2 =>
      have hfu : 1 + jfuel v + ofuel (JObj.cons k2 v2 tl) ≤ Nat.succ f2 := hfuel
      have hfj : jfuel v ≤ f2 := by omega
      have hfo : ofuel (JObj.cons k2 v2 tl) ≤ f2 := by omega
      have hval := rtVal v f2 (',' :: ' ' :: (dumpObj (JObj.cons k2 v2 tl) ++ rbrace :: t))
        hsp.1 hfj (topBoundary_delim v ',' _ (by decide))
      have hrest := rtMembers (JObj.cons k2 v2 tl) f2 t hsp.2 (by simp) hfo
      have hskipv := skipWs_dump v hsp.1
        (',' :: ' ' :: (dumpObj (JObj.cons k2 v2 tl) ++ rbrace :: t))
      have hskipo := skipWs_dumpObj k2 v2 tl (rbrace :: t)
      have hne1 : ¬(',' = rbrace) := by decide
      have hsh : dumpObj (JObj.cons k v (JObj.cons k2 v2 tl)) ++ rbrace :: t
          = '"' :: (escapeStr k.data ++ '"' :: (':' :: ' ' :: (dumpJson v ++
              ',' :: ' ' :: (dumpObj (JObj.cons k2 v2 tl) ++ rbrace :: t)))) := by
        simp [dumpObj]
      rw [hsh]
      simp [parseMembers, scanStr_escape, skipWs, jsonWs, hskipv, hval, hne1, hskipo, hrest]
end

/-- C6: the decode step of `query_ollama_payload` has raw-decode prefix
semantics. For every sanitized text that begins with a complete valid JSON
value (any serializer output, numbers followed by a non-extending character)
and arbitrary trailing content, the translator's decode step returns exactly
that first value, ignoring the trailing content; and whenever the raw decoder
finds no valid JSON value at the very start (leading garbage), the decode step
returns `none` (the `MalformedPayload` failure path) rather than a payload. -/
theorem C6_decode_semantics :
    (∀ (v : Json) (t : List Char), wfJson v = true → topBoundary v t = true →
      decode_step (String.mk (dumpJson v ++ t)) = some v) ∧
    (∀ s : String, rawDecode s = none → decode_step s = none) := by
  constructor
  · intro v t hwf hb
    have hlen : jfuel v ≤ (dumpJson v ++ t).length + 1 := by
      have h := jfuel_le v hwf
      simp only [List.length_append]
      omega
    have h2 : rawDecode (String.mk (dumpJson v ++ t)) = some (v, t) :=
      rtVal v ((dumpJson v ++ t).length + 1) t hwf hlen hb
    simp [decode_step, h2]
  · intro s hs
    simp [decode_step, hs]

/-- Witness: the stub text from the spec scenario with a trailing comment
decodes to the leading object, and a garbage text decodes to `none`. -/
theorem C6_decode_semantics_witness :
    decode_step (String.mk (dumpJson (Json.obj (JObj.cons "j1" (Json.num "10") JObj.nil))
        ++ (' ' :: 'x' :: []))) = some (Json.obj (JObj.cons "j1" (Json.num "10") JObj.nil)) ∧
    decode_step (String.mk ('x' :: [])) = none :=
  ⟨C6_decode_semantics.1 (Json.obj (JObj.cons "j1" (Json.num "10") JObj.nil))
    (' ' :: 'x' :: []) (by decide) (by decide),
   C6_decode_semantics.2 (String.mk ('x' :: [])) (by decide)⟩

end WsHub
